import Mathlib

/-!
Verification of the dcal syllabus-extraction pipeline.

This file shallowly embeds the parts of the repository that the claims are
about:

* the client-side SSE stream consumer `uploadExtractSyllabus`
  (`src/lib/api.ts`), including its carry-over buffer, its `\n\n`-or-`\n`
  splitting, its error handling and its end-of-stream handling;
* the server-side extraction endpoints (`src/app/page.tsx`, both `POST`
  variants) as emitters of `ProgressEvent` sequences, parameterised by the
  responses of the external AI service;
* the retrying extractor `extractSyllabusData` and the zod validator
  `SyllabusSchema` (`src/lib/data.ts`);
* the partial-data merge in `UploadModal.handleProgress` and in
  `streamExtractSyllabusData`;
* the persistence step `saveSelectedAssignments` over a list model of the
  `assignments` relation (`src/db/schema.ts`).

JavaScript built-ins (`JSON.parse`, `String.prototype.trim`, `String.split`,
truthiness, the `Date` constructor on ISO strings) are modelled explicitly;
each model is documented at its definition.  Strings are modelled as
`List Char`.
-/

namespace Dcal

/-- The character-list of a string literal. -/
def strL (s : String) : List Char := s.data

/-- JS whitespace, as used by `String.prototype.trim`: the pipeline only ever
meets spaces, tabs, carriage returns and newlines. -/
def isWs (c : Char) : Bool := c = ' ' || c = '\t' || c = '\n' || c = '\r'

/-- Model of `String.prototype.trim`: strip whitespace from both ends. -/
def trimWs (cs : List Char) : List Char :=
  ((cs.dropWhile isWs).reverse.dropWhile isWs).reverse

/-- ASCII decimal digit test. -/
def isDigit (c : Char) : Bool := '0' ≤ c && c ≤ '9'

/-- Numeric value of a decimal digit character. -/
def digitVal (c : Char) : Nat := c.toNat - '0'.toNat

/-- Value of a big-endian list of decimal digit characters. -/
def digitsVal (ds : List Char) : Nat := ds.foldl (fun a c => 10 * a + digitVal c) 0

/-! ## JSON values and a model of `JSON.parse`

The stream consumer calls `JSON.parse` on each extracted SSE line and then
accesses properties of the result without any schema validation, so the
embedding works with raw JSON values.  Numbers are restricted to optionally
signed integers (the pipeline only ever carries integer timestamps), and
`\uXXXX` string escapes are not modelled; both restrictions only shrink the
set of inputs the model covers, never change the behaviour on covered
inputs. -/

/-- JSON values as produced by `JSON.parse`.  Object fields are kept in
textual order. -/
inductive Json where
  | null : Json
  | bool : Bool → Json
  | num : Int → Json
  | str : List Char → Json
  | arr : List Json → Json
  | obj : List (List Char × Json) → Json

/-- Skip JSON whitespace. -/
def skipWs : List Char → List Char := List.dropWhile isWs

/-- Parse the body of a JSON string literal, after the opening quote: the
decoded characters and the input following the closing quote. -/
def parseStrBody : List Char → Option (List Char × List Char)
  | [] => none
  | '"' :: rest => some ([], rest)
  | '\\' :: [] => none
  | '\\' :: e :: rest => do
      let dec ← match e with
        | '"' => some '"'
        | '\\' => some '\\'
        | '/' => some '/'
        | 'n' => some '\n'
        | 't' => some '\t'
        | 'r' => some '\r'
        | 'b' => some (Char.ofNat 8)
        | 'f' => some (Char.ofNat 12)
        | _ => none
      let (s, r) ← parseStrBody rest
      some (dec :: s, r)
  | c :: rest => do
      let (s, r) ← parseStrBody rest
      some (c :: s, r)

/-- Maximal leading run of decimal digits, and the rest. -/
def takeDigits (cs : List Char) : List Char × List Char :=
  (cs.takeWhile isDigit, cs.dropWhile isDigit)

mutual

/-- Fuel-bounded recursive-descent JSON value parser: one JSON value off the
front of the input, returning it with the unconsumed tail. -/
def parseVal : Nat → List Char → Option (Json × List Char)
  | 0, _ => none
  | fuel + 1, cs =>
    match skipWs cs with
    | 'n' :: 'u' :: 'l' :: 'l' :: rest => some (.null, rest)
    | 't' :: 'r' :: 'u' :: 'e' :: rest => some (.bool true, rest)
    | 'f' :: 'a' :: 'l' :: 's' :: 'e' :: rest => some (.bool false, rest)
    | '"' :: rest => do
        let (s, r) ← parseStrBody rest
        some (.str s, r)
    | '{' :: rest =>
        (match skipWs rest with
         | '}' :: r => some (.obj [], r)
         | _ => do
             let (fs, r) ← parseFields fuel rest
             some (.obj fs, r))
    | '[' :: rest =>
        (match skipWs rest with
         | ']' :: r => some (.arr [], r)
         | _ => do
             let (xs, r) ← parseItems fuel rest
             some (.arr xs, r))
    | '-' :: rest =>
        (match takeDigits rest with
         | ([], _) => none
         | (ds, r) => some (.num (-(digitsVal ds : Int)), r))
    | c :: rest =>
        if isDigit c then
          match takeDigits (c :: rest) with
          | (ds, r) => some (.num (digitsVal ds), r)
        else none
    | [] => none

/-- Comma-separated JSON values up to the closing `]`. -/
def parseItems : Nat → List Char → Option (List Json × List Char)
  | 0, _ => none
  | fuel + 1, cs => do
      let (v, r) ← parseVal fuel cs
      match skipWs r with
      | ',' :: r2 => do
          let (xs, r3) ← parseItems fuel r2
          some (v :: xs, r3)
      | ']' :: r2 => some ([v], r2)
      | _ => none

/-- Comma-separated `"key": value` fields up to the closing `}`. -/
def parseFields : Nat → List Char → Option (List (List Char × Json) × List Char)
  | 0, _ => none
  | fuel + 1, cs =>
      match skipWs cs with
      | '"' :: rest => do
          let (k, r) ← parseStrBody rest
          match skipWs r with
          | ':' :: r2 => do
              let (v, r3) ← parseVal fuel r2
              (match skipWs r3 with
               | ',' :: r4 => do
                   let (fs, r5) ← parseFields fuel r4
                   some ((k, v) :: fs, r5)
               | '}' :: r4 => some ([(k, v)], r4)
               | _ => none)
          | _ => none
      | _ => none

end

/-- Model of `JSON.parse`: the whole input, up to trailing whitespace, must be
one JSON value.  The fuel is sufficient because every recursive call consumes
at least one input character. -/
def jsonParse (cs : List Char) : Option Json :=
  match parseVal (cs.length + 1) cs with
  | some (v, rest) => if skipWs rest = [] then some v else none
  | none => none

/-- JS property lookup on a parsed JSON value (`undefined` is `none`; with
duplicate keys `JSON.parse` keeps the last occurrence). -/
def jGet (j : Json) (k : List Char) : Option Json :=
  match j with
  | .obj fs => (fs.reverse.find? (fun f => decide (f.1 = k))).map (·.2)
  | _ => none

/-- JS truthiness of a property-lookup result: `undefined`, `null`, `false`,
`0` and the empty string are falsy; every object and array is truthy. -/
def jsTruthy : Option Json → Bool
  | none => false
  | some .null => false
  | some (.bool b) => b
  | some (.num n) => decide (n ≠ 0)
  | some (.str s) => !s.isEmpty
  | some (.arr _) => true
  | some (.obj _) => true

/-- JS strict equality test `j.stage === s` between a property-lookup result
and a string literal: true exactly when the property is that string. -/
def isStr (v : Option Json) (s : List Char) : Bool :=
  match v with
  | some (.str t) => decide (t = s)
  | _ => false

/-! ## The client-side stream consumer (`uploadExtractSyllabus`, src/lib/api.ts)

The read loop keeps a carry-over string buffer; each read appends the decoded
chunk, splits on the regex `\n\n|\n`, pops the trailing partial piece back
into the buffer, and processes every complete piece.  A piece that is
nonempty after trimming and starts with `"data: "` is JSON-parsed and
dispatched to `onProgress`; an `error`-stage event records the error and
throws (the throw is caught by the surrounding `catch`, which rethrows only
when the caught message differs from the recorded error); a `complete`-stage
event with truthy `data` returns that data.  At end of stream the leftover
buffer is split on single newlines and processed with a swallow-all catch,
then the function returns the extracted data or throws. -/

/-- Model of `buffer.split(/\n\n|\n/)`: at each newline the regex prefers to
consume a double newline as one separator, otherwise a single one. -/
def splitSSE : List Char → List (List Char)
  | [] => [[]]
  | c :: rest =>
      if c = '\n' then
        match rest with
        | [] => [[], []]
        | c2 :: rest2 =>
            if c2 = '\n' then [] :: splitSSE rest2
            else [] :: splitSSE (c2 :: rest2)
      else (splitSSE rest).modifyHead (c :: ·)

/-- Model of `buffer.split("\n")`. -/
def splitNl : List Char → List (List Char)
  | [] => [[]]
  | c :: rest =>
      if c = '\n' then [] :: splitNl rest
      else (splitNl rest).modifyHead (c :: ·)

/-- The SSE line prefix `"data: "` (6 characters, cf. `line.slice(6)`). -/
def dataHdr : List Char := strL "data: "

/-- The fallback error text `"An error occurred during extraction"`. -/
def defaultErrMsg : List Char := strL "An error occurred during extraction"

/-- Stand-in for the message of the `SyntaxError` thrown by `JSON.parse` on
malformed input. -/
def parseErrMsg : List Char := strL "Unexpected token"

/-- The `"Stream ended unexpectedly..."` message of api.ts line 103. -/
def streamEndedMsg : List Char :=
  strL "Stream ended unexpectedly. The extraction may have failed or timed out."

/-- The mutable state of the `uploadExtractSyllabus` read loop: the carry-over
`buffer`, the list of values dispatched to `onProgress` so far, the `error`
variable (`none` models `null`), the `extractedData` returned on a
data-carrying complete event (which also ends the loop), and a pending
uncaught exception. -/
structure ClientState where
  buffer : List Char
  dispatched : List Json
  errVal : Option Json
  result : Option Json
  thrown : Option Json

/-- The state at the top of the read loop: empty buffer, nothing dispatched,
`error = null`, no result, no exception. -/
def initClient : ClientState := ⟨[], [], none, none, none⟩

/-- `data.error || "An error occurred during extraction"` (api.ts line 133). -/
def errOrDefault (j : Json) : Json :=
  if jsTruthy (jGet j (strL "error")) then (jGet j (strL "error")).getD .null
  else .str defaultErrMsg

/-- Whether the recorded `error` variable is exactly the string `s`
(the `e.message !== error` comparison is JS strict equality, so it can only
hold between two equal strings). -/
def errValIsStr (v : Option Json) (s : List Char) : Bool :=
  match v with
  | some (.str t) => decide (t = s)
  | _ => false

/-- Processing of one complete piece inside the read loop (api.ts lines
121-148).  When the loop has already returned or thrown, nothing happens.
Otherwise the piece is trimmed; if nonempty and starting with `"data: "`, the
rest is JSON-parsed.  A parse failure throws `SyntaxError`, which the `catch`
rethrows unless its message strictly equals the recorded `error`.  A parsed
event is dispatched, then: `error` stage records `data.error || default` and
throws it — that throw is always caught, and is rethrown only when the thrown
message differs (under strict equality) from the just-recorded `error`, i.e.
exactly when the recorded value is not a string; a `complete` stage with
truthy `data` sets the result, ending the loop. -/
def processLine (st : ClientState) (piece : List Char) : ClientState :=
  if st.result.isSome || st.thrown.isSome then st
  else
    let line := trimWs piece
    if (!line.isEmpty) && dataHdr.isPrefixOf line then
      match jsonParse (line.drop 6) with
      | none =>
          if errValIsStr st.errVal parseErrMsg then st
          else { st with thrown := some (.str parseErrMsg) }
      | some j =>
          let st1 := { st with dispatched := st.dispatched ++ [j] }
          if isStr (jGet j (strL "stage")) (strL "error") then
            match errOrDefault j with
            | .str s => { st1 with errVal := some (.str s) }
            | v => { st1 with errVal := some v, thrown := some v }
          else if isStr (jGet j (strL "stage")) (strL "complete")
              && jsTruthy (jGet j (strL "data")) then
            { st1 with result := jGet j (strL "data") }
          else st1
    else st

/-- One iteration of the read loop on a decoded chunk (api.ts lines 114-149):
append the chunk to the buffer, split on `\n\n|\n`, pop the trailing partial
piece back into the buffer, and process the complete pieces in order. -/
def processChunk (st : ClientState) (chunk : List Char) : ClientState :=
  if st.result.isSome || st.thrown.isSome then st
  else
    let pieces := splitSSE (st.buffer ++ chunk)
    pieces.dropLast.foldl processLine { st with buffer := pieces.getLast?.getD [] }

/-- The read loop over the whole sequence of chunks. -/
def runChunks (chunks : List (List Char)) : ClientState :=
  chunks.foldl processChunk initClient

/-- End-of-stream processing of one leftover buffer line (api.ts lines
80-96): the emptiness test trims but `startsWith` and `slice(6)` use the raw
line; the `catch` swallows everything; a data-carrying complete event records
the result (without ending the line loop), an error event records the error,
and there is no throw. -/
def processDoneLine (st : ClientState) (line : List Char) : ClientState :=
  if (!(trimWs line).isEmpty) && dataHdr.isPrefixOf line then
    match jsonParse (line.drop 6) with
    | none => st
    | some j =>
        let st1 := { st with dispatched := st.dispatched ++ [j] }
        if isStr (jGet j (strL "stage")) (strL "complete")
            && jsTruthy (jGet j (strL "data")) then
          { st1 with result := jGet j (strL "data") }
        else if isStr (jGet j (strL "stage")) (strL "error") then
          { st1 with errVal := some (errOrDefault j) }
        else st1
  else st

/-- The whole of `uploadExtractSyllabus` after the HTTP response: run the
read loop, and at end of stream (if the loop neither returned nor threw)
process the leftover buffer split on single newlines (api.ts lines 76-98). -/
def clientRun (chunks : List (List Char)) : ClientState :=
  let st := runChunks chunks
  if st.result.isSome || st.thrown.isSome then st
  else if !(trimWs st.buffer).isEmpty then (splitNl st.buffer).foldl processDoneLine st
  else st

/-- The observable outcome of `uploadExtractSyllabus`: the returned
`ExtractedSyllabusData`, or the thrown error. -/
inductive ClientOutcome where
  | ok : Json → ClientOutcome
  | threw : Json → ClientOutcome

/-- Outcome of the whole call (api.ts lines 100-111 for the end-of-stream
throws): a pending exception propagates; a recorded result is returned;
otherwise the call throws the recorded error, or the `"Stream ended
unexpectedly"` error if none was recorded. -/
def clientOutcome (chunks : List (List Char)) : ClientOutcome :=
  let st := clientRun chunks
  match st.thrown with
  | some t => .threw t
  | none =>
      match st.result with
      | some d => .ok d
      | none =>
          .threw (if jsTruthy st.errVal then st.errVal.getD .null else .str streamEndedMsg)

/-! ## Facts about the SSE splitter -/

/-- Unfolding lemma: a non-newline head joins the first piece of the split of
the tail. -/
theorem splitSSE_cons_ne (c : Char) (rest : List Char) (h : c ≠ '\n') :
    splitSSE (c :: rest) = (splitSSE rest).modifyHead (c :: ·) := by
  rw [splitSSE.eq_def]
  simp [h]

theorem splitSSE_ne_nil (cs : List Char) : splitSSE cs ≠ [] := by
  induction cs with
  | nil => simp [splitSSE]
  | cons c rest ih =>
      by_cases h : c = '\n'
      · subst h
        cases rest with
        | nil => simp [splitSSE]
        | cons c2 r2 => by_cases h2 : c2 = '\n' <;> simp [splitSSE, h2]
      · rw [splitSSE_cons_ne c rest h]
        cases hsp : splitSSE rest with
        | nil => exact absurd hsp ih
        | cons a l => simp [List.modifyHead]

theorem splitSSE_append_nlfree (L xs : List Char) (h : '\n' ∉ L) :
    splitSSE (L ++ xs) = (splitSSE xs).modifyHead (L ++ ·) := by
  induction L with
  | nil =>
      cases hsp : splitSSE xs with
      | nil => exact absurd hsp (splitSSE_ne_nil xs)
      | cons a l => simp [List.modifyHead, hsp]
  | cons c L ih =>
      have hc : c ≠ '\n' := fun hcc => h (by simp [hcc])
      have hL : '\n' ∉ L := fun hm => h (by simp [hm])
      cases hsp : splitSSE xs with
      | nil => exact absurd hsp (splitSSE_ne_nil xs)
      | cons a l =>
          have hrec := ih hL
          rw [hsp] at hrec
          rw [List.cons_append, splitSSE_cons_ne c (L ++ xs) hc, hrec]
          simp [List.modifyHead]

/-- A newline-free string is a single piece. -/
theorem splitSSE_nlfree (L : List Char) (h : '\n' ∉ L) : splitSSE L = [L] := by
  have := splitSSE_append_nlfree L [] h
  simpa [splitSSE, List.modifyHead] using this

/-- A complete line followed by the blank-line separator: the line splits off
and the rest is split independently. -/
theorem splitSSE_line_sep (L rest : List Char) (h : '\n' ∉ L) :
    splitSSE (L ++ '\n' :: '\n' :: rest) = L :: splitSSE rest := by
  rw [splitSSE_append_nlfree L _ h]
  simp [splitSSE, List.modifyHead]

/-- A complete line followed by a single trailing newline. -/
theorem splitSSE_line_nl (L : List Char) (h : '\n' ∉ L) :
    splitSSE (L ++ ['\n']) = [L, []] := by
  rw [splitSSE_append_nlfree L _ h]
  simp [splitSSE, List.modifyHead]

/-- A leading newline not followed by another newline is a bare separator. -/
theorem splitSSE_nl_cons (c : Char) (rest : List Char) (h : c ≠ '\n') :
    splitSSE ('\n' :: c :: rest) = [] :: splitSSE (c :: rest) := by
  simp [splitSSE, h]

theorem splitSSE_nl_nil : splitSSE ['\n'] = [[], []] := by rfl

/-! ## Well-formed SSE frames and the boundary-independence of dispatch -/

/-- One SSE-framed event on the wire: the `"data: "` prefix, a payload, and
the blank-line separator. -/
def frameText (p : List Char) : List Char := dataHdr ++ p ++ strL "\n\n"

/-- The byte stream carrying the given payloads. -/
def framesText (ps : List (List Char)) : List Char := (ps.map frameText).flatten

/-- A well-formed SSE frame payload decoding to the event `e`: newline-free,
untouched by trimming (every JSON object serialisation is), and accepted by
`JSON.parse`. -/
structure WfFrame (p : List Char) (e : Json) : Prop where
  nlFree : '\n' ∉ p
  trimId : trimWs (dataHdr ++ p) = dataHdr ++ p
  parses : jsonParse p = some e

/-- The event is not a data-carrying complete event (those end the read
loop by returning). -/
def NotDataComplete (e : Json) : Prop :=
  ¬(isStr (jGet e (strL "stage")) (strL "complete") = true ∧
    jsTruthy (jGet e (strL "data")) = true)

/-- For an error-stage event, `data.error || default` is a string, so the
client's deliberate throw is swallowed by its own catch (`e.message !== error`
fails on two equal strings). -/
def ErrFieldOk (e : Json) : Prop :=
  isStr (jGet e (strL "stage")) (strL "error") = true → ∃ s, errOrDefault e = Json.str s

theorem isPrefixOf_append_self (l t : List Char) : l.isPrefixOf (l ++ t) = true := by
  induction l with
  | nil => simp
  | cons c l ih => simp [List.isPrefixOf, ih]

theorem framesText_nil : framesText [] = [] := rfl

theorem framesText_cons (p : List Char) (ps : List (List Char)) :
    framesText (p :: ps) = (dataHdr ++ p) ++ '\n' :: '\n' :: framesText ps := by
  show frameText p ++ framesText ps = _
  simp [frameText, strL, List.append_assoc]

theorem processLine_nil (st : ClientState) : processLine st [] = st := by
  simp [processLine, trimWs]

/-- Processing a well-formed, non-terminal event line dispatches exactly that
event and neither returns nor throws; the buffer is untouched. -/
theorem processLine_frame (st : ClientState) (p : List Char) (e : Json)
    (hw : WfFrame p e) (hnt : NotDataComplete e) (heo : ErrFieldOk e)
    (hr : st.result = none) (ht : st.thrown = none) :
    (processLine st (dataHdr ++ p)).dispatched = st.dispatched ++ [e] ∧
    (processLine st (dataHdr ++ p)).result = none ∧
    (processLine st (dataHdr ++ p)).thrown = none ∧
    (processLine st (dataHdr ++ p)).buffer = st.buffer := by
  have hne : (dataHdr ++ p).isEmpty = false := rfl
  have hpre : dataHdr.isPrefixOf (dataHdr ++ p) = true := isPrefixOf_append_self dataHdr p
  have hdrop : (dataHdr ++ p).drop 6 = p := List.drop_left dataHdr p
  simp only [processLine, hr, ht, Option.isSome_none, Bool.or_self, Bool.false_eq_true,
    if_false, hw.trimId, hne, hpre, Bool.not_false, Bool.and_self, if_true, hdrop,
    hw.parses]
  by_cases herr : isStr (jGet e (strL "stage")) (strL "error") = true
  · obtain ⟨s, hs⟩ := heo herr
    simp [herr, hs]
  · simp only [Bool.not_eq_true] at herr
    simp [herr, if_neg hnt]

/-- Core of the boundary-independence argument: processing the pieces of any
prefix `Q` of the pending frame stream dispatches exactly the events whose
frames are completed within `Q`, and leaves as the popped last piece either a
newline-free partial line (whose text prepended to the rest restores the
pending stream) or an empty piece sitting in the middle of a blank-line
separator. -/
theorem chunkCore (pend : List (List Char × Json)) :
    ∀ Q rest : List Char,
    (∀ pe ∈ pend, WfFrame pe.1 pe.2 ∧ NotDataComplete pe.2 ∧ ErrFieldOk pe.2) →
    Q ++ rest = framesText (pend.map (·.1)) →
    ∃ k, k ≤ pend.length ∧
      (∀ st0 : ClientState, st0.result = none → st0.thrown = none →
        (((splitSSE Q).dropLast.foldl processLine st0).dispatched
            = st0.dispatched ++ (pend.take k).map (·.2) ∧
         ((splitSSE Q).dropLast.foldl processLine st0).result = none ∧
         ((splitSSE Q).dropLast.foldl processLine st0).thrown = none ∧
         ((splitSSE Q).dropLast.foldl processLine st0).buffer = st0.buffer)) ∧
      ((((splitSSE Q).getLast?.getD []) ++ rest = framesText ((pend.drop k).map (·.1)) ∧
          '\n' ∉ ((splitSSE Q).getLast?.getD []))
        ∨ (((splitSSE Q).getLast?.getD []) = [] ∧
            rest = '\n' :: framesText ((pend.drop k).map (·.1)))) := by
  induction pend with
  | nil =>
      intro Q rest hw hQ
      rw [List.map_nil, framesText_nil, List.append_eq_nil] at hQ
      obtain ⟨hQ0, hr0⟩ := hQ
      subst hQ0; subst hr0
      refine ⟨0, Nat.le_refl 0, ?_, ?_⟩
      · intro st0 h1 h2
        simp [splitSSE, h1, h2]
      · left
        simp [splitSSE, framesText_nil]
  | cons pe tl ih =>
      intro Q rest hw hQ
      obtain ⟨p, e⟩ := pe
      obtain ⟨hwf, hnt, heo⟩ := hw (p, e) (by simp)
      have hwtl : ∀ pe ∈ tl, WfFrame pe.1 pe.2 ∧ NotDataComplete pe.2 ∧ ErrFieldOk pe.2 :=
        fun pe hm => hw pe (by simp [hm])
      have hLnl : '\n' ∉ dataHdr ++ p := by
        intro hm
        rcases List.mem_append.mp hm with h | h
        · exact absurd h (by decide)
        · exact hwf.nlFree h
      simp only [List.map_cons] at hQ
      rw [framesText_cons] at hQ
      rcases List.append_eq_append_iff.mp hQ with ⟨a', hQa, _hra⟩ | ⟨c', hQc, hrc⟩
      · -- `Q` is a prefix of the first line: nothing complete yet.
        have hQnl : '\n' ∉ Q := fun hm => hLnl (hQa ▸ List.mem_append_left _ hm)
        refine ⟨0, Nat.zero_le _, ?_, ?_⟩
        · intro st0 h1 h2
          rw [splitSSE_nlfree Q hQnl]
          simp [h1, h2]
        · left
          rw [splitSSE_nlfree Q hQnl]
          refine ⟨?_, by simpa using hQnl⟩
          simp only [List.getLast?_singleton, Option.getD_some, List.drop_zero,
            List.map_cons]
          rw [framesText_cons]
          exact hQ
      · -- `Q` contains the whole first line.
        cases c' with
        | nil =>
            -- `Q` is exactly the first line, separator not yet seen.
            simp only [List.append_nil] at hQc
            subst hQc
            refine ⟨0, Nat.zero_le _, ?_, ?_⟩
            · intro st0 h1 h2
              rw [splitSSE_nlfree _ hLnl]
              simp [h1, h2]
            · left
              rw [splitSSE_nlfree _ hLnl]
              refine ⟨?_, by simpa using hLnl⟩
              simp only [List.getLast?_singleton, Option.getD_some, List.drop_zero,
                List.map_cons]
              rw [framesText_cons]
              exact hQ
        | cons x a'' =>
            rw [List.cons_append] at hrc
            injection hrc with hx hrc2
            subst hx
            cases a'' with
            | nil =>
                -- `Q` ends exactly one newline into the separator: the line is
                -- complete and dispatched, the second newline is still to come.
                simp only [List.nil_append] at hrc2
                subst hQc
                rw [splitSSE_line_nl _ hLnl]
                refine ⟨1, by simp, ?_, ?_⟩
                · intro st0 h1 h2
                  obtain ⟨hd, hres, hth, hbuf⟩ :=
                    processLine_frame st0 p e hwf hnt heo h1 h2
                  simp only [List.dropLast_cons₂, List.dropLast_single, List.foldl_cons,
                    List.foldl_nil]
                  exact ⟨by simpa using hd, hres, hth, hbuf⟩
                · right
                  refine ⟨by simp, ?_⟩
                  simpa using hrc2.symm
            | cons y a''' =>
                rw [List.cons_append] at hrc2
                injection hrc2 with hy hrc3
                subst hy
                subst hQc
                have hsp : splitSSE ((dataHdr ++ p) ++ '\n' :: '\n' :: a''') =
                    (dataHdr ++ p) :: splitSSE a''' := splitSSE_line_sep _ _ hLnl
                obtain ⟨k', hk', hfold, hcase⟩ := ih a''' rest hwtl hrc3.symm
                obtain ⟨a0, l0, hsp0⟩ : ∃ a0 l0, splitSSE a''' = a0 :: l0 := by
                  cases hx0 : splitSSE a''' with
                  | nil => exact absurd hx0 (splitSSE_ne_nil a''')
                  | cons a0 l0 => exact ⟨a0, l0, rfl⟩
                refine ⟨k' + 1, by simpa using Nat.succ_le_succ hk', ?_, ?_⟩
                · intro st0 h1 h2
                  obtain ⟨hd, hres, hth, hbuf⟩ :=
                    processLine_frame st0 p e hwf hnt heo h1 h2
                  obtain ⟨hd2, hres2, hth2, hbuf2⟩ :=
                    hfold (processLine st0 (dataHdr ++ p)) hres hth
                  rw [hsp, hsp0, List.dropLast_cons₂, List.foldl_cons]
                  rw [hsp0] at hd2 hres2 hth2 hbuf2
                  refine ⟨?_, hres2, hth2, by rw [hbuf2, hbuf]⟩
                  rw [hd2, hd]
                  simp [List.take_succ_cons, List.append_assoc]
                · rw [hsp, hsp0, List.getLast?_cons_cons]
                  rw [hsp0] at hcase
                  simpa [List.drop_succ_cons] using hcase
theorem dataHdr_eq : dataHdr = 'd' :: strL "ata: " := rfl

/-- Strict equality with a string literal holds exactly for that string. -/
theorem isStr_eq_true_iff (v : Option Json) (s : List Char) :
    isStr v s = true ↔ v = some (.str s) := by
  unfold isStr
  cases v with
  | none => simp
  | some j => cases j <;> simp

/-- The read-loop invariant: nothing returned or thrown yet, the first `d`
events dispatched, and the carry-over buffer is either a newline-free partial
line that together with the unread text restores the pending frames, or is
empty with the unread text starting in the middle of a blank-line
separator. -/
def Inv (evs : List (List Char × Json)) (st : ClientState) (rest : List Char) : Prop :=
  st.result = none ∧ st.thrown = none ∧
  ∃ d, d ≤ evs.length ∧ st.dispatched = (evs.take d).map (·.2) ∧
    ((st.buffer ++ rest = framesText ((evs.drop d).map (·.1)) ∧ '\n' ∉ st.buffer)
     ∨ (st.buffer = [] ∧ rest = '\n' :: framesText ((evs.drop d).map (·.1))))

/-- One read-loop iteration preserves the invariant, wherever the chunk
boundary falls. -/
theorem inv_step (evs : List (List Char × Json))
    (hw : ∀ pe ∈ evs, WfFrame pe.1 pe.2 ∧ NotDataComplete pe.2 ∧ ErrFieldOk pe.2)
    (st : ClientState) (c rest : List Char) (h : Inv evs st (c ++ rest)) :
    Inv evs (processChunk st c) rest := by
  obtain ⟨hres, hth, d, hd, hdisp, hcase⟩ := h
  have hwd : ∀ pe ∈ evs.drop d, WfFrame pe.1 pe.2 ∧ NotDataComplete pe.2 ∧ ErrFieldOk pe.2 :=
    fun pe hm => hw pe (List.drop_subset d evs hm)
  have hg : (st.result.isSome || st.thrown.isSome) = false := by simp [hres, hth]
  rcases hcase with ⟨hA, hnl⟩ | ⟨hB, hrest⟩
  · -- mid-line case
    have hQ : (st.buffer ++ c) ++ rest = framesText ((evs.drop d).map (·.1)) := by
      rw [List.append_assoc]; exact hA
    obtain ⟨k, hk, hfold, hcase'⟩ := chunkCore (evs.drop d) (st.buffer ++ c) rest hwd hQ
    have hst0 : ({ st with buffer := (splitSSE (st.buffer ++ c)).getLast?.getD [] } :
        ClientState).result = none := hres
    have hst0' : ({ st with buffer := (splitSSE (st.buffer ++ c)).getLast?.getD [] } :
        ClientState).thrown = none := hth
    obtain ⟨hd2, hres2, hth2, hbuf2⟩ := hfold _ hst0 hst0'
    have hpc : processChunk st c =
        (splitSSE (st.buffer ++ c)).dropLast.foldl processLine
          { st with buffer := (splitSSE (st.buffer ++ c)).getLast?.getD [] } := by
      simp [processChunk, hres, hth]
    rw [hpc]
    refine ⟨hres2, hth2, d + k, ?_, ?_, ?_⟩
    · have := List.length_drop d evs ▸ hk
      omega
    · rw [hd2, List.take_add, List.map_append]
      simp only [hdisp]
    · rw [hbuf2]
      simpa [List.drop_drop] using hcase'
  · -- mid-separator case
    cases c with
    | nil =>
        have hpc : processChunk st [] = { st with buffer := [] } := by
          simp [processChunk, hres, hth, hB, splitSSE]
        rw [hpc]
        exact ⟨hres, hth, d, hd, hdisp, Or.inr ⟨rfl, by simpa using hrest⟩⟩
    | cons x c' =>
        rw [List.cons_append] at hrest
        injection hrest with hx hF
        subst hx
        cases c' with
        | nil =>
            have hpc : processChunk st ['\n'] = { st with buffer := [] } := by
              simp [processChunk, hres, hth, hB, splitSSE, processLine_nil]
            rw [hpc]
            exact ⟨hres, hth, d, hd, hdisp, Or.inl ⟨by simpa using hF, by simp⟩⟩
        | cons z c'' =>
            have hzd : z = 'd' := by
              cases hdp : evs.drop d with
              | nil => rw [hdp] at hF; simp [framesText_nil] at hF
              | cons pe tl' =>
                  rw [hdp, List.map_cons, framesText_cons, dataHdr_eq,
                    List.cons_append, List.cons_append] at hF
                  exact (List.cons.injEq .. ▸ hF).1
            have hzn : z ≠ '\n' := by rw [hzd]; decide
            have hQ : (z :: c'') ++ rest = framesText ((evs.drop d).map (·.1)) := hF
            obtain ⟨k, hk, hfold, hcase'⟩ := chunkCore (evs.drop d) (z :: c'') rest hwd hQ
            obtain ⟨a0, l0, hsp0⟩ : ∃ a0 l0, splitSSE (z :: c'') = a0 :: l0 := by
              cases hx0 : splitSSE (z :: c'') with
              | nil => exact absurd hx0 (splitSSE_ne_nil _)
              | cons a0 l0 => exact ⟨a0, l0, rfl⟩
            have hbc : st.buffer ++ '\n' :: z :: c'' = '\n' :: z :: c'' := by
              rw [hB]; rfl
            have hsp : splitSSE (st.buffer ++ '\n' :: z :: c'') = [] :: a0 :: l0 := by
              rw [hbc, splitSSE_nl_cons z c'' hzn, hsp0]
            have hpc : processChunk st ('\n' :: z :: c'') =
                (a0 :: l0).dropLast.foldl processLine
                  { st with buffer := (a0 :: l0).getLast?.getD [] } := by
              simp only [processChunk, hg, Bool.false_eq_true, if_false, hsp,
                List.dropLast_cons₂, List.foldl_cons, processLine_nil,
                List.getLast?_cons_cons]
            have hst0 : ({ st with buffer := (a0 :: l0).getLast?.getD [] } :
                ClientState).result = none := hres
            have hst0' : ({ st with buffer := (a0 :: l0).getLast?.getD [] } :
                ClientState).thrown = none := hth
            have hfold' := hfold _ hst0 hst0'
            rw [hsp0] at hfold'
            obtain ⟨hd2, hres2, hth2, hbuf2⟩ := hfold'
            rw [hpc]
            refine ⟨hres2, hth2, d + k, ?_, ?_, ?_⟩
            · have := List.length_drop d evs ▸ hk
              omega
            · rw [hd2, List.take_add, List.map_append]
              simp only [hdisp]
            · rw [hbuf2]
              rw [hsp0] at hcase'
              simpa [List.drop_drop] using hcase'

/-- Folding the whole chunk sequence preserves the invariant down to an empty
remainder. -/
theorem runChunks_inv (evs : List (List Char × Json))
    (hw : ∀ pe ∈ evs, WfFrame pe.1 pe.2 ∧ NotDataComplete pe.2 ∧ ErrFieldOk pe.2) :
    ∀ (chunks : List (List Char)) (st : ClientState),
      Inv evs st chunks.flatten → Inv evs (chunks.foldl processChunk st) [] := by
  intro chunks
  induction chunks with
  | nil => intro st h; simpa using h
  | cons c cs ihc =>
      intro st h
      rw [List.flatten_cons] at h
      exact ihc _ (inv_step evs hw st c cs.flatten h)

/-- At end of stream the invariant forces: everything dispatched, empty
buffer, no early return, no exception. -/
theorem inv_final (evs : List (List Char × Json)) (st : ClientState)
    (h : Inv evs st []) :
    st.dispatched = evs.map (·.2) ∧ st.buffer = [] ∧ st.result = none ∧ st.thrown = none := by
  obtain ⟨hres, hth, d, hd, hdisp, hcase⟩ := h
  rcases hcase with ⟨hb, hnl⟩ | ⟨_, hrest⟩
  · rw [List.append_nil] at hb
    cases hdp : evs.drop d with
    | cons pe tl' =>
        exfalso
        rw [hdp, List.map_cons, framesText_cons] at hb
        exact hnl (hb ▸ List.mem_append_right _ (by simp))
    | nil =>
        have hlen : evs.length ≤ d := List.drop_eq_nil_iff.mp hdp
        have ht : evs.take d = evs := List.take_of_length_le hlen
        rw [hdp] at hb
        simp only [List.map_nil, framesText_nil] at hb
        exact ⟨by rw [hdisp, ht], hb, hres, hth⟩
  · simp at hrest

/-- The stream consumer dispatches exactly one `onProgress` callback per
well-formed frame, regardless of where the chunk boundaries fall — provided
no frame is a data-carrying complete event (which ends the loop) and every
error-stage frame carries a string (or absent/falsy) `error` field (a
non-string truthy `error` field makes the client rethrow). -/
theorem c1_dispatch_boundary_independent
    (evs : List (List Char × Json)) (chunks : List (List Char))
    (hw : ∀ pe ∈ evs, WfFrame pe.1 pe.2 ∧ NotDataComplete pe.2 ∧ ErrFieldOk pe.2)
    (hc : chunks.flatten = framesText (evs.map (·.1))) :
    (clientRun chunks).dispatched = evs.map (·.2) := by
  have hInit : Inv evs initClient chunks.flatten := by
    refine ⟨rfl, rfl, 0, Nat.zero_le _, rfl, ?_⟩
    left
    exact ⟨by simpa [initClient] using hc, by simp [initClient]⟩
  have hFin := runChunks_inv evs hw chunks initClient hInit
  obtain ⟨hdisp, hbuf, hres, hth⟩ := inv_final evs _ hFin
  have hrc : clientRun chunks = runChunks chunks := by
    unfold clientRun runChunks
    simp [hres, hth, hbuf, trimWs]
  rw [hrc]
  exact hdisp

/-- Witness: two well-formed frames, the chunk boundary falling in the middle
of the first frame's JSON object, both dispatched. -/
theorem c1_dispatch_boundary_independent_witness :
    (clientRun [strL "data: \x7b\"stage\":\"analy",
        strL "zing\",\"timestamp\":2\x7d\n\ndata: \x7b\"stage\":\"extracting\",\"timestamp\":3\x7d\n\n"]).dispatched
      = [Json.obj [(strL "stage", .str (strL "analyzing")), (strL "timestamp", .num 2)],
         Json.obj [(strL "stage", .str (strL "extracting")), (strL "timestamp", .num 3)]] := by
  have h := c1_dispatch_boundary_independent
    [(strL "\x7b\"stage\":\"analyzing\",\"timestamp\":2\x7d",
       Json.obj [(strL "stage", .str (strL "analyzing")), (strL "timestamp", .num 2)]),
     (strL "\x7b\"stage\":\"extracting\",\"timestamp\":3\x7d",
       Json.obj [(strL "stage", .str (strL "extracting")), (strL "timestamp", .num 3)])]
    [strL "data: \x7b\"stage\":\"analy",
     strL "zing\",\"timestamp\":2\x7d\n\ndata: \x7b\"stage\":\"extracting\",\"timestamp\":3\x7d\n\n"]
    (by
      intro pe hpe
      simp only [List.mem_cons, List.not_mem_nil, or_false] at hpe
      rcases hpe with rfl | rfl
      · exact ⟨⟨by decide, rfl, rfl⟩, by unfold NotDataComplete; decide,
          fun hx => absurd hx (by decide)⟩
      · exact ⟨⟨by decide, rfl, rfl⟩, by unfold NotDataComplete; decide,
          fun hx => absurd hx (by decide)⟩)
    rfl
  exact h

/-- Counterexample to C1 as stated: two well-formed frames delivered in one
chunk, the first being a data-carrying complete event — only one callback is
dispatched, because the event ends the read loop. -/
theorem c1_counterexample :
    (∃ e1, WfFrame (strL "\x7b\"stage\":\"complete\",\"data\":\x7b\"course\":\"C\",\"assignments\":[]\x7d,\"timestamp\":1\x7d") e1) ∧
    (∃ e2, WfFrame (strL "\x7b\"stage\":\"analyzing\",\"timestamp\":2\x7d") e2) ∧
    [strL "data: \x7b\"stage\":\"complete\",\"data\":\x7b\"course\":\"C\",\"assignments\":[]\x7d,\"timestamp\":1\x7d\n\ndata: \x7b\"stage\":\"analyzing\",\"timestamp\":2\x7d\n\n"].flatten
      = framesText [strL "\x7b\"stage\":\"complete\",\"data\":\x7b\"course\":\"C\",\"assignments\":[]\x7d,\"timestamp\":1\x7d",
                    strL "\x7b\"stage\":\"analyzing\",\"timestamp\":2\x7d"] ∧
    (clientRun [strL "data: \x7b\"stage\":\"complete\",\"data\":\x7b\"course\":\"C\",\"assignments\":[]\x7d,\"timestamp\":1\x7d\n\ndata: \x7b\"stage\":\"analyzing\",\"timestamp\":2\x7d\n\n"]).dispatched.length
      = 1 := by
  refine ⟨⟨.obj [(strL "stage", .str (strL "complete")),
      (strL "data", .obj [(strL "course", .str (strL "C")), (strL "assignments", .arr [])]),
      (strL "timestamp", .num 1)], by decide, rfl, rfl⟩,
    ⟨.obj [(strL "stage", .str (strL "analyzing")), (strL "timestamp", .num 2)],
      by decide, rfl, rfl⟩, rfl, rfl⟩

/-- The failing input for C2: an error-stage event frame followed by another
frame.  The client dispatches the error event, records the error, throws it —
and its own catch swallows that throw (`e.message !== error` is false for the
string it just recorded), so reading continues: the following event is also
dispatched, and the error only surfaces when the stream ends. -/
theorem c2_dispatch_continues_after_error_event :
    (clientRun [strL "data: \x7b\"stage\":\"error\",\"error\":\"boom\",\"timestamp\":1\x7d\n\ndata: \x7b\"stage\":\"analyzing\",\"timestamp\":2\x7d\n\n"]).dispatched
      = [Json.obj [(strL "stage", .str (strL "error")), (strL "error", .str (strL "boom")),
          (strL "timestamp", .num 1)],
         Json.obj [(strL "stage", .str (strL "analyzing")), (strL "timestamp", .num 2)]] ∧
    clientOutcome [strL "data: \x7b\"stage\":\"error\",\"error\":\"boom\",\"timestamp\":1\x7d\n\ndata: \x7b\"stage\":\"analyzing\",\"timestamp\":2\x7d\n\n"]
      = .threw (.str (strL "boom")) := ⟨rfl, rfl⟩

/-- A decoded complete-stage event without a truthy `data` field is
dispatched like any progress event and does not end the read loop (the
result stays unset, so reading continues); only a complete event that also
carries data sets the result, ending the loop with success. -/
theorem c10_dataless_complete_not_terminal :
    (∀ (st : ClientState) (p : List Char) (e : Json),
      WfFrame p e → st.result = none → st.thrown = none →
      isStr (jGet e (strL "stage")) (strL "complete") = true →
      jsTruthy (jGet e (strL "data")) = false →
      (processLine st (dataHdr ++ p)).dispatched = st.dispatched ++ [e] ∧
      (processLine st (dataHdr ++ p)).result = none ∧
      (processLine st (dataHdr ++ p)).thrown = none) ∧
    (∀ (st : ClientState) (p : List Char) (e : Json),
      WfFrame p e → st.result = none → st.thrown = none →
      isStr (jGet e (strL "stage")) (strL "complete") = true →
      jsTruthy (jGet e (strL "data")) = true →
      (processLine st (dataHdr ++ p)).result = jGet e (strL "data") ∧
      (processLine st (dataHdr ++ p)).dispatched = st.dispatched ++ [e]) := by
  have hstage : ∀ (e : Json), isStr (jGet e (strL "stage")) (strL "complete") = true →
      isStr (jGet e (strL "stage")) (strL "error") = false := by
    intro e hc
    rw [isStr_eq_true_iff] at hc
    rw [hc]
    decide
  constructor
  · intro st p e hw hr ht hc hd
    have hnt : NotDataComplete e := by
      intro hx
      rw [hd] at hx
      exact absurd hx.2 (by simp)
    have heo : ErrFieldOk e := fun hx => absurd hx (by simp [hstage e hc])
    obtain ⟨h1, h2, h3, _⟩ := processLine_frame st p e hw hnt heo hr ht
    exact ⟨h1, h2, h3⟩
  · intro st p e hw hr ht hc hd
    have hne : (dataHdr ++ p).isEmpty = false := rfl
    have hpre : dataHdr.isPrefixOf (dataHdr ++ p) = true := isPrefixOf_append_self dataHdr p
    have hdrop : (dataHdr ++ p).drop 6 = p := List.drop_left dataHdr p
    simp only [processLine, hr, ht, Option.isSome_none, Bool.or_self, Bool.false_eq_true,
      if_false, hw.trimId, hne, hpre, Bool.not_false, Bool.and_self, if_true, hdrop,
      hw.parses]
    simp [hstage e hc, hc, hd]

/-- Witness for the two sides of `c10_dataless_complete_not_terminal` at
concrete events: a complete event with no data field is dispatched without
setting the result; one with a data object sets the result to that object. -/
theorem c10_dataless_complete_not_terminal_witness :
    (processLine initClient (dataHdr ++ strL "\x7b\"stage\":\"complete\",\"timestamp\":9\x7d")).result = none ∧
    (processLine initClient (dataHdr ++ strL "\x7b\"stage\":\"complete\",\"timestamp\":9\x7d")).dispatched
      = [Json.obj [(strL "stage", .str (strL "complete")), (strL "timestamp", .num 9)]] ∧
    (processLine initClient (dataHdr ++ strL "\x7b\"stage\":\"complete\",\"data\":\x7b\"course\":\"C\",\"assignments\":[]\x7d\x7d")).result
      = some (.obj [(strL "course", .str (strL "C")), (strL "assignments", .arr [])]) := by
  have h1 := c10_dataless_complete_not_terminal.1 initClient
    (strL "\x7b\"stage\":\"complete\",\"timestamp\":9\x7d")
    (Json.obj [(strL "stage", .str (strL "complete")), (strL "timestamp", .num 9)])
    ⟨by decide, rfl, rfl⟩ rfl rfl (by decide) (by decide)
  have h2 := c10_dataless_complete_not_terminal.2 initClient
    (strL "\x7b\"stage\":\"complete\",\"data\":\x7b\"course\":\"C\",\"assignments\":[]\x7d\x7d")
    (Json.obj [(strL "stage", .str (strL "complete")),
      (strL "data", .obj [(strL "course", .str (strL "C")), (strL "assignments", .arr [])])])
    ⟨by decide, rfl, rfl⟩ rfl rfl (by decide) (by decide)
  exact ⟨h1.2.1, by simpa [initClient] using h1.1, by rw [h2.1]; rfl⟩

/-! ## The zod schemas (`AssignmentSchema` / `SyllabusSchema`, src/lib/data.ts)

`SyllabusSchema.parse` either returns the typed value or throws a `ZodError`
carrying a list of issues, each with a path and a message; zod validates all
object fields and all array elements, collecting every issue.  `.describe()`
calls are metadata only and add no checks: `z.string()` accepts any string,
empty or not, with no date-format constraint. -/

/-- An assignment draft as typed by `AssignmentSchema`: `description` is
optional, `due_time` optional and nullable (`none` = absent,
`some none` = null). -/
structure AssignmentDraft where
  name : List Char
  description : Option (List Char)
  due_date : List Char
  due_time : Option (Option (List Char))

/-- The syllabus structure typed by `SyllabusSchema`. -/
structure SyllabusStructure where
  course : List Char
  assignments : List AssignmentDraft

/-- One zod issue: a path (object keys and array indices, the latter rendered
in decimal as `path.join(".")` does) and a human message. -/
structure ZodIssue where
  path : List (List Char)
  message : List Char

/-- Decimal rendering of an array index for issue paths. -/
def natToChars (n : Nat) : List Char := Nat.toDigits 10 n

/-- zod's name for the runtime type of a received value. -/
def typeName : Json → List Char
  | .null => strL "null"
  | .bool _ => strL "boolean"
  | .num _ => strL "number"
  | .str _ => strL "string"
  | .arr _ => strL "array"
  | .obj _ => strL "object"

/-- Combine two field validations, collecting the issues of both. -/
def zMerge {α β : Type} : Except (List ZodIssue) α → Except (List ZodIssue) β →
    Except (List ZodIssue) (α × β)
  | .ok a, .ok b => .ok (a, b)
  | .error e1, .error e2 => .error (e1 ++ e2)
  | .error e1, .ok _ => .error e1
  | .ok _, .error e2 => .error e2

/-- `z.string()` on an object property: absent is `Required`, a non-string is
a type mismatch. -/
def zString (pth : List (List Char)) : Option Json → Except (List ZodIssue) (List Char)
  | none => .error [⟨pth, strL "Required"⟩]
  | some (.str s) => .ok s
  | some v => .error [⟨pth, strL "Expected string, received " ++ typeName v⟩]

/-- `z.string().optional()`: absent is fine, otherwise it must be a string. -/
def zStringOpt (pth : List (List Char)) : Option Json →
    Except (List ZodIssue) (Option (List Char))
  | none => .ok none
  | some (.str s) => .ok (some s)
  | some v => .error [⟨pth, strL "Expected string, received " ++ typeName v⟩]

/-- `z.string().optional().nullable()`: absent, null, or a string. -/
def zStringOptNullable (pth : List (List Char)) : Option Json →
    Except (List ZodIssue) (Option (Option (List Char)))
  | none => .ok none
  | some .null => .ok (some none)
  | some (.str s) => .ok (some (some s))
  | some v => .error [⟨pth, strL "Expected string, received " ++ typeName v⟩]

/-- `AssignmentSchema` applied to one array element at the given path. -/
def parseAssignment (pth : List (List Char)) (j : Json) :
    Except (List ZodIssue) AssignmentDraft :=
  match j with
  | .obj _ =>
      match zMerge (zMerge (zString (pth ++ [strL "name"]) (jGet j (strL "name")))
            (zStringOpt (pth ++ [strL "description"]) (jGet j (strL "description"))))
          (zMerge (zString (pth ++ [strL "due_date"]) (jGet j (strL "due_date")))
            (zStringOptNullable (pth ++ [strL "due_time"]) (jGet j (strL "due_time")))) with
      | .ok ((n, de), (dd, dt)) => .ok ⟨n, de, dd, dt⟩
      | .error es => .error es
  | v => .error [⟨pth, strL "Expected object, received " ++ typeName v⟩]

/-- `z.array(AssignmentSchema)` elementwise, issues carrying the element
index. -/
def parseAssignments (i : Nat) : List Json → Except (List ZodIssue) (List AssignmentDraft)
  | [] => .ok []
  | x :: xs =>
      match zMerge (parseAssignment [strL "assignments", natToChars i] x)
          (parseAssignments (i + 1) xs) with
      | .ok (a, as') => .ok (a :: as')
      | .error es => .error es

/-- Model of `SyllabusSchema.parse`: `.ok` is the typed value, `.error` is
the `ZodError`'s issue list. -/
def SyllabusSchemaParse (j : Json) : Except (List ZodIssue) SyllabusStructure :=
  match j with
  | .obj _ =>
      let rc := zString [strL "course"] (jGet j (strL "course"))
      let ra : Except (List ZodIssue) (List AssignmentDraft) :=
        match jGet j (strL "assignments") with
        | none => .error [⟨[strL "assignments"], strL "Required"⟩]
        | some (.arr xs) => parseAssignments 0 xs
        | some v => .error [⟨[strL "assignments"], strL "Expected array, received " ++ typeName v⟩]
      match zMerge rc ra with
      | .ok (c, as') => .ok ⟨c, as'⟩
      | .error es => .error es
  | v => .error [⟨[], strL "Expected object, received " ++ typeName v⟩]

/-- `Array.prototype.join(sep)`. -/
def joinSep (sep : List Char) : List (List Char) → List Char
  | [] => []
  | [x] => x
  | x :: xs => x ++ sep ++ joinSep sep xs

/-- `formatValidationErrors` (src/lib/data.ts lines 194-203): each issue as
`- path: message` (or `- message` when the joined path is empty), joined by
newlines. -/
def formatValidationErrors (issues : List ZodIssue) : List Char :=
  joinSep (strL "\n")
    (issues.map (fun iss =>
      let pth := joinSep (strL ".") iss.path
      if pth.isEmpty then strL "- " ++ iss.message
      else strL "- " ++ pth ++ strL ": " ++ iss.message))

/-- Shape test: the property is present and a string. -/
def isStrShape (v : Option Json) : Bool :=
  match v with
  | some (.str _) => true
  | _ => false

/-- Shape test: absent, or present and a string. -/
def isOptStrShape (v : Option Json) : Bool :=
  match v with
  | none => true
  | some (.str _) => true
  | _ => false

/-- Shape test: absent, null, or a string. -/
def isOptNullStrShape (v : Option Json) : Bool :=
  match v with
  | none => true
  | some .null => true
  | some (.str _) => true
  | _ => false

/-- The well-shapedness the validator actually enforces, written from the
amended claim: an object carrying string `name` and `due_date` (no
date-format check), optional string `description`, and optional nullable
string `due_time`. -/
def wellShapedAssignment (j : Json) : Bool :=
  match j with
  | .obj _ =>
      (isStrShape (jGet j (strL "name")) && isOptStrShape (jGet j (strL "description"))) &&
      (isStrShape (jGet j (strL "due_date")) &&
        isOptNullStrShape (jGet j (strL "due_time")))
  | _ => false

/-- Shape test: present and an array whose members are all well-shaped
assignment objects. -/
def isArrAllShape (v : Option Json) : Bool :=
  match v with
  | some (.arr xs) => xs.all wellShapedAssignment
  | _ => false

/-- Spec-side shape predicate for the whole candidate, written from the
amended claim: an object whose `course` is a string (empty allowed) and whose
`assignments` is an array of well-shaped assignment objects. -/
def wellShaped (j : Json) : Bool :=
  match j with
  | .obj _ =>
      isStrShape (jGet j (strL "course")) && isArrAllShape (jGet j (strL "assignments"))
  | _ => false

theorem zMerge_isOk {α β : Type} (a : Except (List ZodIssue) α) (b : Except (List ZodIssue) β) :
    (zMerge a b).isOk = (a.isOk && b.isOk) := by
  cases a <;> cases b <;> rfl

theorem zMerge_error_ne {α β : Type} (a : Except (List ZodIssue) α)
    (b : Except (List ZodIssue) β)
    (ha : ∀ e, a = .error e → e ≠ []) (hb : ∀ e, b = .error e → e ≠ [])
    (es : List ZodIssue) (h : zMerge a b = .error es) : es ≠ [] := by
  cases a with
  | ok x =>
      cases b with
      | ok y => exact absurd h (by simp [zMerge])
      | error e2 => simp only [zMerge, Except.error.injEq] at h; exact h ▸ hb e2 rfl
  | error e1 =>
      cases b with
      | ok y => simp only [zMerge, Except.error.injEq] at h; exact h ▸ ha e1 rfl
      | error e2 =>
          simp only [zMerge, Except.error.injEq] at h
          intro hnil
          exact ha e1 rfl (List.append_eq_nil.mp (h ▸ hnil)).1

theorem zString_isOk (pth : List (List Char)) (v : Option Json) :
    (zString pth v).isOk = isStrShape v := by
  cases v with
  | none => rfl
  | some j => cases j <;> rfl

theorem zStringOpt_isOk (pth : List (List Char)) (v : Option Json) :
    (zStringOpt pth v).isOk = isOptStrShape v := by
  cases v with
  | none => rfl
  | some j => cases j <;> rfl

theorem zStringOptNullable_isOk (pth : List (List Char)) (v : Option Json) :
    (zStringOptNullable pth v).isOk = isOptNullStrShape v := by
  cases v with
  | none => rfl
  | some j => cases j <;> rfl

theorem parseAssignment_isOk (pth : List (List Char)) (j : Json) :
    (parseAssignment pth j).isOk = wellShapedAssignment j := by
  cases j with
  | obj fs =>
      show (match zMerge (zMerge _ _) (zMerge _ _) with
        | .ok ((n, de), (dd, dt)) => Except.ok (⟨n, de, dd, dt⟩ : AssignmentDraft)
        | .error es => Except.error es).isOk = _
      have h : ∀ (r : Except (List ZodIssue)
          (((List Char) × Option (List Char)) × ((List Char) × Option (Option (List Char))))),
          (match r with
           | .ok ((n, de), (dd, dt)) => Except.ok (⟨n, de, dd, dt⟩ : AssignmentDraft)
           | .error es => (Except.error es : Except (List ZodIssue) AssignmentDraft)).isOk
            = r.isOk := by
        intro r
        rcases r with ⟨⟨n, de⟩, dd, dt⟩ | es <;> rfl
      rw [h, zMerge_isOk, zMerge_isOk, zMerge_isOk, zString_isOk, zStringOpt_isOk,
        zString_isOk, zStringOptNullable_isOk]
      rfl
  | null => rfl
  | bool b => rfl
  | num n => rfl
  | str s => rfl
  | arr xs => rfl

theorem parseAssignments_isOk (xs : List Json) : ∀ i : Nat,
    (parseAssignments i xs).isOk = xs.all wellShapedAssignment := by
  induction xs with
  | nil => intro i; rfl
  | cons x xs ih =>
      intro i
      show (match zMerge (parseAssignment [strL "assignments", natToChars i] x)
          (parseAssignments (i + 1) xs) with
        | .ok (a, as') => Except.ok (a :: as')
        | .error es => (Except.error es : Except (List ZodIssue) (List AssignmentDraft))).isOk = _
      have h : ∀ (r : Except (List ZodIssue) (AssignmentDraft × List AssignmentDraft)),
          (match r with
           | .ok (a, as') => Except.ok (a :: as')
           | .error es => (Except.error es : Except (List ZodIssue) (List AssignmentDraft))).isOk
            = r.isOk := by
        intro r
        rcases r with ⟨a, as'⟩ | es <;> rfl
      rw [h, zMerge_isOk, parseAssignment_isOk, ih (i + 1), List.all_cons]

theorem SyllabusSchemaParse_isOk (j : Json) :
    (SyllabusSchemaParse j).isOk = wellShaped j := by
  cases j with
  | obj fs =>
      have h : ∀ (r : Except (List ZodIssue) (List Char × List AssignmentDraft)),
          (match r with
           | .ok (c, as') => Except.ok (⟨c, as'⟩ : SyllabusStructure)
           | .error es => (Except.error es : Except (List ZodIssue) SyllabusStructure)).isOk
            = r.isOk := by
        rintro (⟨c, as'⟩ | es) <;> rfl
      show (match zMerge (zString [strL "course"] (jGet (Json.obj fs) (strL "course")))
          (match jGet (Json.obj fs) (strL "assignments") with
           | none => .error [⟨[strL "assignments"], strL "Required"⟩]
           | some (.arr xs) => parseAssignments 0 xs
           | some v => .error [⟨[strL "assignments"],
               strL "Expected array, received " ++ typeName v⟩]) with
        | .ok (c, as') => Except.ok (⟨c, as'⟩ : SyllabusStructure)
        | .error es => (Except.error es : Except (List ZodIssue) SyllabusStructure)).isOk
          = wellShaped (Json.obj fs)
      rw [h, zMerge_isOk, zString_isOk]
      have hra : (match jGet (Json.obj fs) (strL "assignments") with
          | none => (Except.error [⟨[strL "assignments"], strL "Required"⟩] :
              Except (List ZodIssue) (List AssignmentDraft))
          | some (.arr xs) => parseAssignments 0 xs
          | some v => .error [⟨[strL "assignments"],
              strL "Expected array, received " ++ typeName v⟩]).isOk
            = isArrAllShape (jGet (Json.obj fs) (strL "assignments")) := by
        cases jGet (Json.obj fs) (strL "assignments") with
        | none => rfl
        | some v =>
            cases v with
            | arr xs => exact parseAssignments_isOk xs 0
            | null => rfl
            | bool b => rfl
            | num n => rfl
            | str s => rfl
            | obj gs => rfl
      rw [hra]
      rfl
  | null => rfl
  | bool b => rfl
  | num n => rfl
  | str s => rfl
  | arr xs => rfl

theorem zString_error_ne (pth : List (List Char)) (v : Option Json)
    (es : List ZodIssue) (h : zString pth v = .error es) : es ≠ [] := by
  intro hnil
  subst hnil
  cases v with
  | none => simp [zString] at h
  | some j => cases j <;> simp [zString] at h

theorem zStringOpt_error_ne (pth : List (List Char)) (v : Option Json)
    (es : List ZodIssue) (h : zStringOpt pth v = .error es) : es ≠ [] := by
  intro hnil
  subst hnil
  cases v with
  | none => simp [zStringOpt] at h
  | some j => cases j <;> simp [zStringOpt] at h

theorem zStringOptNullable_error_ne (pth : List (List Char)) (v : Option Json)
    (es : List ZodIssue) (h : zStringOptNullable pth v = .error es) : es ≠ [] := by
  intro hnil
  subst hnil
  cases v with
  | none => simp [zStringOptNullable] at h
  | some j => cases j <;> simp [zStringOptNullable] at h

theorem parseAssignment_error_ne (pth : List (List Char)) (j : Json)
    (es : List ZodIssue) (h : parseAssignment pth j = .error es) : es ≠ [] := by
  intro hnil
  subst hnil
  cases j with
  | obj fs =>
      have heq : parseAssignment pth (Json.obj fs) =
          (match zMerge (zMerge (zString (pth ++ [strL "name"]) (jGet (Json.obj fs) (strL "name")))
                (zStringOpt (pth ++ [strL "description"])
                  (jGet (Json.obj fs) (strL "description"))))
              (zMerge (zString (pth ++ [strL "due_date"]) (jGet (Json.obj fs) (strL "due_date")))
                (zStringOptNullable (pth ++ [strL "due_time"])
                  (jGet (Json.obj fs) (strL "due_time")))) with
           | .ok ((n, de), (dd, dt)) => .ok ⟨n, de, dd, dt⟩
           | .error es' => .error es') := rfl
      rw [heq] at h
      cases hm : zMerge (zMerge (zString (pth ++ [strL "name"]) (jGet (Json.obj fs) (strL "name")))
            (zStringOpt (pth ++ [strL "description"]) (jGet (Json.obj fs) (strL "description"))))
          (zMerge (zString (pth ++ [strL "due_date"]) (jGet (Json.obj fs) (strL "due_date")))
            (zStringOptNullable (pth ++ [strL "due_time"])
              (jGet (Json.obj fs) (strL "due_time")))) with
      | ok v =>
          obtain ⟨⟨n, de⟩, dd, dt⟩ := v
          rw [hm] at h
          simp at h
      | error es' =>
          rw [hm] at h
          simp only [Except.error.injEq] at h
          subst h
          exact zMerge_error_ne _ _
            (fun e he => zMerge_error_ne _ _ (fun e2 he2 => zString_error_ne _ _ e2 he2)
              (fun e2 he2 => zStringOpt_error_ne _ _ e2 he2) e he)
            (fun e he => zMerge_error_ne _ _ (fun e2 he2 => zString_error_ne _ _ e2 he2)
              (fun e2 he2 => zStringOptNullable_error_ne _ _ e2 he2) e he)
            [] hm rfl
  | null => simp [parseAssignment] at h
  | bool b => simp [parseAssignment] at h
  | num n => simp [parseAssignment] at h
  | str s => simp [parseAssignment] at h
  | arr xs => simp [parseAssignment] at h

theorem parseAssignments_error_ne (xs : List Json) : ∀ (i : Nat) (es : List ZodIssue),
    parseAssignments i xs = .error es → es ≠ [] := by
  induction xs with
  | nil => intro i es h; exact absurd h (by simp [parseAssignments])
  | cons x xs ih =>
      intro i es h hnil
      subst hnil
      have heq : parseAssignments i (x :: xs) =
          (match zMerge (parseAssignment [strL "assignments", natToChars i] x)
              (parseAssignments (i + 1) xs) with
           | .ok (a, as') => .ok (a :: as')
           | .error es' => .error es') := rfl
      rw [heq] at h
      cases hm : zMerge (parseAssignment [strL "assignments", natToChars i] x)
          (parseAssignments (i + 1) xs) with
      | ok v =>
          obtain ⟨a, as'⟩ := v
          rw [hm] at h
          simp at h
      | error es' =>
          rw [hm] at h
          simp only [Except.error.injEq] at h
          subst h
          exact zMerge_error_ne _ _ (fun e he => parseAssignment_error_ne _ _ e he)
            (fun e he => ih (i + 1) e he) [] hm rfl

theorem SyllabusSchemaParse_error_ne (j : Json) (es : List ZodIssue)
    (h : SyllabusSchemaParse j = .error es) : es ≠ [] := by
  intro hnil
  subst hnil
  cases j with
  | obj fs =>
      have heq : SyllabusSchemaParse (Json.obj fs) =
          (match zMerge (zString [strL "course"] (jGet (Json.obj fs) (strL "course")))
              (match jGet (Json.obj fs) (strL "assignments") with
               | none => (Except.error [⟨[strL "assignments"], strL "Required"⟩] :
                   Except (List ZodIssue) (List AssignmentDraft))
               | some (.arr xs) => parseAssignments 0 xs
               | some v => .error [⟨[strL "assignments"],
                   strL "Expected array, received " ++ typeName v⟩]) with
           | .ok (c, as') => .ok ⟨c, as'⟩
           | .error es' => .error es') := rfl
      rw [heq] at h
      cases hm : zMerge (zString [strL "course"] (jGet (Json.obj fs) (strL "course")))
          (match jGet (Json.obj fs) (strL "assignments") with
           | none => (Except.error [⟨[strL "assignments"], strL "Required"⟩] :
               Except (List ZodIssue) (List AssignmentDraft))
           | some (.arr xs) => parseAssignments 0 xs
           | some v => .error [⟨[strL "assignments"],
               strL "Expected array, received " ++ typeName v⟩]) with
      | ok v =>
          obtain ⟨c, as'⟩ := v
          rw [hm] at h
          simp at h
      | error es' =>
          rw [hm] at h
          simp only [Except.error.injEq] at h
          subst h
          refine zMerge_error_ne _ _ (fun e he => zString_error_ne _ _ e he) ?_ [] hm rfl
          intro e he
          rcases hg : jGet (Json.obj fs) (strL "assignments") with _ | v
          · rw [hg] at he
            simp only [Except.error.injEq] at he
            simp [← he]
          · cases v with
            | arr xs =>
                rw [hg] at he
                exact parseAssignments_error_ne xs 0 e he
            | null => rw [hg] at he; simp only [Except.error.injEq] at he; simp [← he]
            | bool b => rw [hg] at he; simp only [Except.error.injEq] at he; simp [← he]
            | num n => rw [hg] at he; simp only [Except.error.injEq] at he; simp [← he]
            | str s => rw [hg] at he; simp only [Except.error.injEq] at he; simp [← he]
            | obj gs => rw [hg] at he; simp only [Except.error.injEq] at he; simp [← he]
  | null => simp [SyllabusSchemaParse] at h
  | bool b => simp [SyllabusSchemaParse] at h
  | num n => simp [SyllabusSchemaParse] at h
  | str s => simp [SyllabusSchemaParse] at h
  | arr xs => simp [SyllabusSchemaParse] at h

/-- The validator accepts exactly the well-shaped candidates (`course` any
string, `assignments` an array of well-shaped assignment objects — with no
non-emptiness or date-format checks), and every rejection carries at least
one field-path issue. -/
theorem c5_validator_accepts_exactly_shape :
    (∀ j : Json, (SyllabusSchemaParse j).isOk = wellShaped j) ∧
    (∀ (j : Json) (es : List ZodIssue), SyllabusSchemaParse j = .error es → es ≠ []) :=
  ⟨SyllabusSchemaParse_isOk, fun j es h => SyllabusSchemaParse_error_ne j es h⟩

/-- Witness: a concrete rejection (a null candidate) carries a nonempty issue
list, and a concrete well-shaped candidate is accepted. -/
theorem c5_validator_accepts_exactly_shape_witness :
    [(⟨[], strL "Expected object, received null"⟩ : ZodIssue)] ≠ [] ∧
    (SyllabusSchemaParse (Json.obj [(strL "course", .str (strL "CS 405")),
        (strL "assignments", .arr [])])).isOk
      = wellShaped (Json.obj [(strL "course", .str (strL "CS 405")),
        (strL "assignments", .arr [])]) :=
  ⟨c5_validator_accepts_exactly_shape.2 Json.null _ rfl,
   c5_validator_accepts_exactly_shape.1 _⟩

/-- Counterexample to C5 as stated: `SyllabusSchema.parse` accepts a
candidate whose `course` is the empty string and whose only assignment has a
`due_date` that is not a well-formed date. -/
theorem c5_counterexample :
    SyllabusSchemaParse (Json.obj [(strL "course", .str []),
        (strL "assignments", .arr [Json.obj [(strL "name", .str (strL "HW1")),
          (strL "due_date", .str (strL "not-a-date"))]])])
      = .ok ⟨[], [⟨strL "HW1", none, strL "not-a-date", none⟩]⟩ := rfl

/-! ## The retrying extractor (`extractSyllabusData`, src/lib/data.ts)

The external `generateText` call is modelled by an oracle
`f : Nat → Except (List Char) (List Char)` giving, per attempt index, either
the thrown error message or the returned text.  The source implements
"retry once" by re-invoking itself with `retryCount = 1`; the embedding
unrolls that recursion into `extractSyllabusData` (the `retryCount = 0`
invocation) and `extractSecondAttempt` (the `retryCount = 1` one).  The
amended-prompt text only influences the external service, i.e. the oracle,
so it is not materialised. -/

/-- Split a list at the first occurrence of `pat`: the part before it and the
part after it. -/
def splitFirst (pat : List Char) : List Char → Option (List Char × List Char)
  | [] => if pat.isPrefixOf [] then some ([], []) else none
  | c :: rest =>
      if pat.isPrefixOf (c :: rest) then some ([], (c :: rest).drop pat.length)
      else (splitFirst pat rest).map (fun pr => (c :: pr.1, pr.2))

/-- Model of the code-fence regex match (three backquotes, an optional `json`
tag, a lazy capture, three backquotes) followed by `jsonMatch[1].trim()`: the
capture is the text between the first fence and the next one, with
surrounding whitespace stripped; with no matching pair of fences the text is
left unchanged. -/
def stripCodeFence (t : List Char) : List Char :=
  match splitFirst (strL "```") t with
  | none => t
  | some (_, afterOpen) =>
      let body := if (strL "json").isPrefixOf afterOpen then afterOpen.drop 4 else afterOpen
      match splitFirst (strL "```") body with
      | none => t
      | some (inner, _) => trimWs inner

/-- The outcome of `extractSyllabusData`: the validated structure, or the
user-facing error message. -/
inductive ExtractResult where
  | okr : SyllabusStructure → ExtractResult
  | failr : List Char → ExtractResult

/-- The second-failure message for a JSON parse error, embedding the first
200 characters of the raw response (data.ts line 412). -/
def parseFailMsg (text : List Char) : List Char :=
  strL "The syllabus could not be parsed. The AI returned invalid JSON format.\n\nResponse received: "
    ++ text.take 200 ++ strL "..."

/-- The second-failure message for a validation error, embedding the
formatted field-level messages (data.ts line 432). -/
def validationFailMsg (errorMessage : List Char) : List Char :=
  strL "The syllabus format is incorrect. Please ensure your syllabus contains:\n\n"
    ++ errorMessage
    ++ strL "\n\nRequired fields:\n- course: The course name or code\n- assignments: An array of assignments, each with:\n  - name: Assignment title (required)\n  - due_date: Due date in YYYY-MM-DD format (required)\n  - description: Assignment description (optional)\n  - due_time: Due time in HH:MM format or null (optional)"

/-- The second-failure message when the external call itself threw
(data.ts line 448). -/
def upstreamFailMsg (m : List Char) : List Char :=
  strL "Failed to process the syllabus: " ++ m

/-- The `retryCount = 1` invocation of `extractSyllabusData`: no further
retry is possible, every failure is final. -/
def extractSecondAttempt (f : Nat → Except (List Char) (List Char)) : ExtractResult :=
  match f 1 with
  | .error e => .failr (upstreamFailMsg e)
  | .ok text =>
      match jsonParse (stripCodeFence (trimWs text)) with
      | none => .failr (parseFailMsg text)
      | some parsed =>
          match SyllabusSchemaParse parsed with
          | .ok data => .okr data
          | .error verr => .failr (validationFailMsg (formatValidationErrors verr))

/-- `extractSyllabusData` (the `retryCount = 0` invocation): on the first
parse, validation or upstream failure it re-invokes the extraction once with
the failure description embedded in the amended prompt; a second failure is
final. -/
def extractSyllabusData (f : Nat → Except (List Char) (List Char)) : ExtractResult :=
  match f 0 with
  | .error _ => extractSecondAttempt f
  | .ok text =>
      match jsonParse (stripCodeFence (trimWs text)) with
      | none => extractSecondAttempt f
      | some parsed =>
          match SyllabusSchemaParse parsed with
          | .ok data => .okr data
          | .error _ => extractSecondAttempt f

/-- The three ways the first attempt can fail: upstream throw, JSON parse
failure, or validation failure. -/
def FirstAttemptFails (f : Nat → Except (List Char) (List Char)) : Prop :=
  (∃ e, f 0 = .error e) ∨
  (∃ t, f 0 = .ok t ∧ jsonParse (stripCodeFence (trimWs t)) = none) ∨
  (∃ t v issues, f 0 = .ok t ∧ jsonParse (stripCodeFence (trimWs t)) = some v ∧
      SyllabusSchemaParse v = .error issues)

theorem firstFails_extract (f : Nat → Except (List Char) (List Char))
    (h : FirstAttemptFails f) : extractSyllabusData f = extractSecondAttempt f := by
  rcases h with ⟨e, he⟩ | ⟨t, ht, hp⟩ | ⟨t, v, issues, ht, hp, hv⟩
  · simp [extractSyllabusData, he]
  · simp [extractSyllabusData, ht, hp]
  · simp [extractSyllabusData, ht, hp, hv]

/-- The extraction makes at most one retry and no third attempt: the result
depends only on the oracle's first two responses; and when both attempts
fail, the final error message embeds the second failure's diagnostics — the
first 200 characters of the raw response for a parse failure, the formatted
field-level issues for a validation failure. -/
theorem c3_retry_bound_and_diagnostics :
    (∀ f g : Nat → Except (List Char) (List Char),
      f 0 = g 0 → f 1 = g 1 → extractSyllabusData f = extractSyllabusData g) ∧
    (∀ (f : Nat → Except (List Char) (List Char)) (t1 : List Char),
      FirstAttemptFails f → f 1 = .ok t1 →
      jsonParse (stripCodeFence (trimWs t1)) = none →
      extractSyllabusData f = .failr (parseFailMsg t1) ∧
        t1.take 200 <:+: parseFailMsg t1) ∧
    (∀ (f : Nat → Except (List Char) (List Char)) (t1 : List Char) (v : Json)
        (issues : List ZodIssue),
      FirstAttemptFails f → f 1 = .ok t1 →
      jsonParse (stripCodeFence (trimWs t1)) = some v →
      SyllabusSchemaParse v = .error issues →
      extractSyllabusData f
          = .failr (validationFailMsg (formatValidationErrors issues)) ∧
        formatValidationErrors issues <:+: validationFailMsg (formatValidationErrors issues)) := by
  refine ⟨?_, ?_, ?_⟩
  · intro f g h0 h1
    unfold extractSyllabusData extractSecondAttempt
    rw [h0, h1]
  · intro f t1 hff h1 hp
    rw [firstFails_extract f hff]
    constructor
    · simp [extractSecondAttempt, h1, hp]
    · exact ⟨strL "The syllabus could not be parsed. The AI returned invalid JSON format.\n\nResponse received: ",
        strL "...", by simp [parseFailMsg]⟩
  · intro f t1 v issues hff h1 hp hv
    rw [firstFails_extract f hff]
    constructor
    · simp [extractSecondAttempt, h1, hp, hv]
    · exact ⟨strL "The syllabus format is incorrect. Please ensure your syllabus contains:\n\n",
        strL "\n\nRequired fields:\n- course: The course name or code\n- assignments: An array of assignments, each with:\n  - name: Assignment title (required)\n  - due_date: Due date in YYYY-MM-DD format (required)\n  - description: Assignment description (optional)\n  - due_time: Due time in HH:MM format or null (optional)",
        by simp [validationFailMsg]⟩

/-- Witness: both attempts return non-JSON text; the final failure quotes
the second response, and the result coincides with any oracle agreeing on
the first two attempts (a third response is never consulted). -/
theorem c3_retry_bound_and_diagnostics_witness :
    extractSyllabusData
        (fun n => if n = 0 then .ok (strL "not json") else .ok (strL "still not json"))
      = .failr (parseFailMsg (strL "still not json")) ∧
    extractSyllabusData
        (fun n => if n = 0 then .ok (strL "not json") else .ok (strL "still not json"))
      = extractSyllabusData
        (fun n => if n = 0 then .ok (strL "not json")
          else if n = 1 then .ok (strL "still not json") else .error (strL "third attempt")) := by
  constructor
  · exact (c3_retry_bound_and_diagnostics.2.1
      (fun n => if n = 0 then .ok (strL "not json") else .ok (strL "still not json"))
      (strL "still not json")
      (Or.inr (Or.inl ⟨strL "not json", rfl, rfl⟩)) rfl rfl).1
  · exact c3_retry_bound_and_diagnostics.1 _ _ rfl rfl

/-! ## The extraction endpoints as event emitters (`POST`, src/app/page.tsx)

Both route variants stream `ProgressEvent`s.  The external AI service is
modelled by oracles: for the non-streaming variant the same
`f : Nat → Except (List Char) (List Char)` as above; for the streaming
variant a list of partial objects plus the final outcome.  Timestamps are
not modelled (no claim mentions them). -/

/-- A partial syllabus object from the streaming extractor
(`Partial<SyllabusStructure>`). -/
structure PartialSyllabus where
  course : Option (List Char)
  assignments : Option (List AssignmentDraft)

/-- A server-emitted `ProgressEvent` (sans timestamp). -/
structure SrvEvent where
  stage : List Char
  message : Option (List Char)
  error : Option (List Char)
  data : Option SyllabusStructure
  partialData : Option PartialSyllabus

/-- `sendProgress` of the non-streaming variant (page.tsx lines 505-508):
`{stage, message, timestamp}`. -/
def progEvent (stage msg : List Char) : SrvEvent := ⟨stage, some msg, none, none, none⟩

/-- `sendProgress` of the streaming variant (page.tsx lines 245-267):
stage, optional message, optional partial data. -/
def progEventP (stage : List Char) (msg : Option (List Char))
    (pd : Option PartialSyllabus) : SrvEvent := ⟨stage, msg, none, none, pd⟩

/-- A terminal error frame `{stage: "error", error, timestamp}`. -/
def errFrameEvent (e : List Char) : SrvEvent := ⟨strL "error", none, some e, none, none⟩

/-- The human summary `Extracted N assignment(s)`. -/
def extractedMsg (d : SyllabusStructure) : List Char :=
  strL "Extracted " ++ natToChars d.assignments.length ++ strL " assignment(s)"

/-- The non-streaming variant's final frame `{stage: "complete", data,
timestamp}` (page.tsx lines 699-704). -/
def completeDataEventV2 (d : SyllabusStructure) : SrvEvent :=
  ⟨strL "complete", none, none, some d, none⟩

/-- The streaming variant's final frame `{stage: "complete", message, data,
timestamp}` (page.tsx lines 433-438). -/
def completeDataEventV1 (d : SyllabusStructure) : SrvEvent :=
  ⟨strL "complete", some (extractedMsg d), none, some d, none⟩

/-- The progress events and result of the `retryCount = 1` invocation of the
progress-reporting `extractSyllabusData` (page.tsx lines 513-650): the three
stage events are emitted before parsing, so they do not depend on the parse
outcome. -/
def extractV2Second (f : Nat → Except (List Char) (List Char)) :
    List SrvEvent × ExtractResult :=
  match f 1 with
  | .error e => ([progEvent (strL "analyzing") (strL "Retrying extraction...")],
      .failr (upstreamFailMsg e))
  | .ok text =>
      ([progEvent (strL "analyzing") (strL "Retrying extraction..."),
        progEvent (strL "extracting") (strL "Processing AI response..."),
        progEvent (strL "validating") (strL "Validating extracted data...")],
       match jsonParse (stripCodeFence (trimWs text)) with
       | none => .failr (parseFailMsg text)
       | some parsed =>
           match SyllabusSchemaParse parsed with
           | .ok d => .okr d
           | .error verr => .failr (validationFailMsg (formatValidationErrors verr)))

/-- The progress events and result of the progress-reporting
`extractSyllabusData` (`retryCount = 0`). -/
def extractV2 (f : Nat → Except (List Char) (List Char)) :
    List SrvEvent × ExtractResult :=
  match f 0 with
  | .error _ =>
      (progEvent (strL "analyzing") (strL "Sending PDF to AI for analysis...")
          :: (extractV2Second f).1,
       (extractV2Second f).2)
  | .ok text =>
      match jsonParse (stripCodeFence (trimWs text)) with
      | none =>
          ([progEvent (strL "analyzing") (strL "Sending PDF to AI for analysis..."),
            progEvent (strL "extracting") (strL "Processing AI response..."),
            progEvent (strL "validating") (strL "Validating extracted data...")]
              ++ (extractV2Second f).1,
           (extractV2Second f).2)
      | some parsed =>
          match SyllabusSchemaParse parsed with
          | .ok d =>
              ([progEvent (strL "analyzing") (strL "Sending PDF to AI for analysis..."),
                progEvent (strL "extracting") (strL "Processing AI response..."),
                progEvent (strL "validating") (strL "Validating extracted data...")],
               .okr d)
          | .error _ =>
              ([progEvent (strL "analyzing") (strL "Sending PDF to AI for analysis..."),
                progEvent (strL "extracting") (strL "Processing AI response..."),
                progEvent (strL "validating") (strL "Validating extracted data...")]
                  ++ (extractV2Second f).1,
               (extractV2Second f).2)

/-- The full event sequence of the non-streaming `POST` (page.tsx lines
652-716): `file = none` models a missing form file.  On success a
message-only complete event is emitted (line 697) and then the data-carrying
complete frame (lines 699-704). -/
def eventsV2 (file : Option (List Char)) (f : Nat → Except (List Char) (List Char)) :
    List SrvEvent :=
  match file with
  | none => [progEvent (strL "uploading") (strL "Receiving PDF file..."),
      errFrameEvent (strL "No file provided")]
  | some fname =>
      ([progEvent (strL "uploading") (strL "Receiving PDF file..."),
        progEvent (strL "uploading") (strL "Processing " ++ fname ++ strL "...")]
          ++ (extractV2 f).1)
        ++ (match (extractV2 f).2 with
            | .okr d => [progEvent (strL "complete") (extractedMsg d),
                completeDataEventV2 d]
            | .failr e => [errFrameEvent e])

/-- Oracle for the streaming extractor: the partial objects yielded by
`partialOutputStream`, and the final output or the stream error (on a stream
error the `onError` callback fires and the awaited output rejects). -/
structure V1Oracle where
  partials : List PartialSyllabus
  result : Except (List Char) SyllabusStructure

/-- The progress events and result of `streamExtractSyllabusData`
(page.tsx lines 272-375): `analyzing`, `extracting`, one `extracting` event
with `partialData` per partial object, then `validating` on success — or an
error-stage progress event (with a message, no `error` field) from `onError`
on a stream failure, which the route then follows with a terminal error
frame. -/
def streamExtractSyllabusData (o : V1Oracle) : List SrvEvent × ExtractResult :=
  (([progEventP (strL "analyzing") (some (strL "Sending PDF to AI for analysis...")) none,
     progEventP (strL "extracting") (some (strL "Extracting assignments from syllabus...")) none]
      ++ o.partials.map (fun q =>
          progEventP (strL "extracting") (some (strL "Parsing syllabus data...")) (some q)))
    ++ (match o.result with
        | .ok _ => [progEventP (strL "validating") (some (strL "Validation complete")) none]
        | .error e => [progEventP (strL "error")
            (some (strL "Stream error: " ++ e)) none]),
   match o.result with
   | .ok d => .okr d
   | .error e => .failr (strL "Failed to process the syllabus: " ++ e))

/-- The full event sequence of the streaming `POST` (page.tsx lines
377-467). -/
def eventsV1 (file : Option (List Char)) (o : V1Oracle) : List SrvEvent :=
  match file with
  | none => [progEventP (strL "uploading") (some (strL "Receiving PDF file...")) none,
      errFrameEvent (strL "No file provided")]
  | some fname =>
      ([progEventP (strL "uploading") (some (strL "Receiving PDF file...")) none,
        progEventP (strL "uploading") (some (strL "Processing " ++ fname ++ strL "...")) none,
        progEventP (strL "analyzing") (some (strL "Sending to AI for analysis...")) none]
          ++ (streamExtractSyllabusData o).1)
        ++ (match (streamExtractSyllabusData o).2 with
            | .okr d => [completeDataEventV1 d]
            | .failr e => [errFrameEvent e])

/-- The terminality predicate of the claim, by stage alone: no
complete-stage or error-stage event is followed by any further event. -/
def stageTerminalOkB : List SrvEvent → Bool
  | [] => true
  | e :: rest =>
      if e.stage = strL "complete" ∨ e.stage = strL "error" then rest.isEmpty
      else stageTerminalOkB rest

/-- A terminal emission: a data-carrying complete frame, or an error frame
carrying an `error` field. -/
def isTermB (e : SrvEvent) : Bool :=
  (decide (e.stage = strL "complete") && e.data.isSome)
    || (decide (e.stage = strL "error") && e.error.isSome)

/-- Terminal emissions are final: nothing follows them. -/
def emissionTerminalOk : List SrvEvent → Bool
  | [] => true
  | e :: rest => if isTermB e then rest.isEmpty else emissionTerminalOk rest

/-- Whether a data-carrying complete frame occurs. -/
def hasDataComplete (l : List SrvEvent) : Bool :=
  l.any (fun e => decide (e.stage = strL "complete") && e.data.isSome)

/-- Whether an error frame (with `error` field) occurs. -/
def hasErrFrame (l : List SrvEvent) : Bool :=
  l.any (fun e => decide (e.stage = strL "error") && e.error.isSome)

theorem isTermB_progEvent (st m : List Char) : isTermB (progEvent st m) = false := by
  simp [isTermB, progEvent]

theorem isTermB_progEventP (st : List Char) (m : Option (List Char))
    (pd : Option PartialSyllabus) : isTermB (progEventP st m pd) = false := by
  simp [isTermB, progEventP]

theorem emissionTerminalOk_append (l1 l2 : List SrvEvent)
    (h : ∀ e ∈ l1, isTermB e = false) :
    emissionTerminalOk (l1 ++ l2) = emissionTerminalOk l2 := by
  induction l1 with
  | nil => rfl
  | cons e l1 ih =>
      rw [List.cons_append]
      show (if isTermB e then ((l1 ++ l2).isEmpty) else emissionTerminalOk (l1 ++ l2)) = _
      rw [h e (by simp)]
      simp only [Bool.false_eq_true, if_false]
      exact ih (fun e2 h2 => h e2 (by simp [h2]))

theorem extractV2Second_safe (f : Nat → Except (List Char) (List Char)) :
    ∀ e ∈ (extractV2Second f).1, isTermB e = false := by
  intro e he
  unfold extractV2Second at he
  cases hf : f 1 with
  | error e1 =>
      rw [hf] at he
      simp only [List.mem_singleton] at he
      subst he
      exact isTermB_progEvent _ _
  | ok t =>
      rw [hf] at he
      simp only [List.mem_cons, List.not_mem_nil, or_false] at he
      rcases he with rfl | rfl | rfl <;> exact isTermB_progEvent _ _

theorem extractV2_safe (f : Nat → Except (List Char) (List Char)) :
    ∀ e ∈ (extractV2 f).1, isTermB e = false := by
  intro e he
  unfold extractV2 at he
  cases hf : f 0 with
  | error e1 =>
      rw [hf] at he
      simp only [List.mem_cons] at he
      rcases he with rfl | he
      · exact isTermB_progEvent _ _
      · exact extractV2Second_safe f e he
  | ok t =>
      simp only [hf] at he
      cases hp : jsonParse (stripCodeFence (trimWs t)) with
      | none =>
          simp only [hp, List.mem_append, List.mem_cons, List.not_mem_nil, or_false] at he
          rcases he with (rfl | rfl | rfl) | he
          · exact isTermB_progEvent _ _
          · exact isTermB_progEvent _ _
          · exact isTermB_progEvent _ _
          · exact extractV2Second_safe f e he
      | some parsed =>
          simp only [hp] at he
          cases hv : SyllabusSchemaParse parsed with
          | ok d =>
              simp only [hv, List.mem_cons, List.not_mem_nil, or_false] at he
              rcases he with rfl | rfl | rfl <;> exact isTermB_progEvent _ _
          | error verr =>
              simp only [hv, List.mem_append, List.mem_cons, List.not_mem_nil, or_false] at he
              rcases he with (rfl | rfl | rfl) | he
              · exact isTermB_progEvent _ _
              · exact isTermB_progEvent _ _
              · exact isTermB_progEvent _ _
              · exact extractV2Second_safe f e he

theorem streamExtract_safe (o : V1Oracle) :
    ∀ e ∈ (streamExtractSyllabusData o).1, isTermB e = false := by
  intro e he
  unfold streamExtractSyllabusData at he
  simp only [List.mem_append, List.mem_cons, List.not_mem_nil, or_false,
    List.mem_map] at he
  rcases he with ((rfl | rfl) | ⟨q, _, rfl⟩) | he
  · exact isTermB_progEventP _ _ _
  · exact isTermB_progEventP _ _ _
  · exact isTermB_progEventP _ _ _
  · cases ho : o.result with
    | ok d =>
        rw [ho] at he
        simp only [List.mem_singleton] at he
        subst he
        exact isTermB_progEventP _ _ _
    | error e1 =>
        rw [ho] at he
        simp only [List.mem_singleton] at he
        subst he
        exact isTermB_progEventP _ _ _

theorem isTermB_false_components (e : SrvEvent) (h : isTermB e = false) :
    (decide (e.stage = strL "complete") && e.data.isSome) = false ∧
    (decide (e.stage = strL "error") && e.error.isSome) = false := by
  unfold isTermB at h
  exact Bool.or_eq_false_iff.mp h

theorem hasDataComplete_false_of_safe (l : List SrvEvent)
    (h : ∀ e ∈ l, isTermB e = false) : hasDataComplete l = false := by
  unfold hasDataComplete
  rw [List.any_eq_false]
  intro e he
  simp [(isTermB_false_components e (h e he)).1]

theorem hasErrFrame_false_of_safe (l : List SrvEvent)
    (h : ∀ e ∈ l, isTermB e = false) : hasErrFrame l = false := by
  unfold hasErrFrame
  rw [List.any_eq_false]
  intro e he
  simp [(isTermB_false_components e (h e he)).2]

theorem hasDataComplete_append (l1 l2 : List SrvEvent) :
    hasDataComplete (l1 ++ l2) = (hasDataComplete l1 || hasDataComplete l2) := by
  unfold hasDataComplete
  exact List.any_append

theorem hasErrFrame_append (l1 l2 : List SrvEvent) :
    hasErrFrame (l1 ++ l2) = (hasErrFrame l1 || hasErrFrame l2) := by
  unfold hasErrFrame
  exact List.any_append

theorem eventsV2_prefix_safe (fname : List Char)
    (f : Nat → Except (List Char) (List Char)) :
    ∀ e ∈ ([progEvent (strL "uploading") (strL "Receiving PDF file..."),
        progEvent (strL "uploading") (strL "Processing " ++ fname ++ strL "...")]
        ++ (extractV2 f).1), isTermB e = false := by
  intro e he
  rcases List.mem_append.mp he with h1 | h2
  · simp only [List.mem_cons, List.not_mem_nil, or_false] at h1
    rcases h1 with rfl | rfl <;> exact isTermB_progEvent _ _
  · exact extractV2_safe f e h2

theorem eventsV1_prefix_safe (fname : List Char) (o : V1Oracle) :
    ∀ e ∈ ([progEventP (strL "uploading") (some (strL "Receiving PDF file...")) none,
        progEventP (strL "uploading") (some (strL "Processing " ++ fname ++ strL "...")) none,
        progEventP (strL "analyzing") (some (strL "Sending to AI for analysis...")) none]
        ++ (streamExtractSyllabusData o).1), isTermB e = false := by
  intro e he
  rcases List.mem_append.mp he with h1 | h2
  · simp only [List.mem_cons, List.not_mem_nil, or_false] at h1
    rcases h1 with rfl | rfl | rfl <;> exact isTermB_progEventP _ _ _
  · exact streamExtract_safe o e h2

/-- In both route variants, the terminal emissions — the data-carrying
complete frame and the error frame (the one with an `error` field) — are
never followed by any further event, and the two never both occur within one
request; however, in the non-streaming variant a successful run first emits
a message-only complete event and only then the data-carrying complete
frame. -/
theorem c4_terminal_frames_are_final :
    (∀ (file : Option (List Char)) (f : Nat → Except (List Char) (List Char)),
        emissionTerminalOk (eventsV2 file f) = true) ∧
    (∀ (file : Option (List Char)) (o : V1Oracle),
        emissionTerminalOk (eventsV1 file o) = true) ∧
    (∀ (file : Option (List Char)) (f : Nat → Except (List Char) (List Char)),
        (hasDataComplete (eventsV2 file f) && hasErrFrame (eventsV2 file f)) = false) ∧
    (∀ (file : Option (List Char)) (o : V1Oracle),
        (hasDataComplete (eventsV1 file o) && hasErrFrame (eventsV1 file o)) = false) ∧
    (∀ (fname : List Char) (f : Nat → Except (List Char) (List Char))
        (d : SyllabusStructure), (extractV2 f).2 = .okr d →
        eventsV2 (some fname) f
          = ([progEvent (strL "uploading") (strL "Receiving PDF file..."),
              progEvent (strL "uploading") (strL "Processing " ++ fname ++ strL "...")]
              ++ (extractV2 f).1)
            ++ [progEvent (strL "complete") (extractedMsg d), completeDataEventV2 d]) := by
  refine ⟨?_, ?_, ?_, ?_, ?_⟩
  · intro file f
    cases file with
    | none => rfl
    | some fname =>
        show emissionTerminalOk (_ ++ _) = true
        rw [emissionTerminalOk_append _ _ (eventsV2_prefix_safe fname f)]
        cases (extractV2 f).2 with
        | okr d => simp [emissionTerminalOk, isTermB, progEvent, completeDataEventV2]
        | failr e => simp [emissionTerminalOk, isTermB, errFrameEvent]
  · intro file o
    cases file with
    | none => rfl
    | some fname =>
        show emissionTerminalOk (_ ++ _) = true
        rw [emissionTerminalOk_append _ _ (eventsV1_prefix_safe fname o)]
        cases (streamExtractSyllabusData o).2 with
        | okr d => simp [emissionTerminalOk, isTermB, completeDataEventV1]
        | failr e => simp [emissionTerminalOk, isTermB, errFrameEvent]
  · intro file f
    cases file with
    | none => rfl
    | some fname =>
        show (hasDataComplete (_ ++ _) && hasErrFrame (_ ++ _)) = false
        rw [hasDataComplete_append, hasErrFrame_append,
          hasDataComplete_false_of_safe _ (eventsV2_prefix_safe fname f),
          hasErrFrame_false_of_safe _ (eventsV2_prefix_safe fname f)]
        cases (extractV2 f).2 with
        | okr d =>
            simp [hasDataComplete, hasErrFrame, progEvent, completeDataEventV2]
        | failr e =>
            simp [hasDataComplete, hasErrFrame, errFrameEvent]
  · intro file o
    cases file with
    | none => rfl
    | some fname =>
        show (hasDataComplete (_ ++ _) && hasErrFrame (_ ++ _)) = false
        rw [hasDataComplete_append, hasErrFrame_append,
          hasDataComplete_false_of_safe _ (eventsV1_prefix_safe fname o),
          hasErrFrame_false_of_safe _ (eventsV1_prefix_safe fname o)]
        cases (streamExtractSyllabusData o).2 with
        | okr d =>
            simp [hasDataComplete, hasErrFrame, completeDataEventV1]
        | failr e =>
            simp [hasDataComplete, hasErrFrame, errFrameEvent]
  · intro fname f d hd
    show (_ ++ (match (extractV2 f).2 with
        | .okr d => [progEvent (strL "complete") (extractedMsg d), completeDataEventV2 d]
        | .failr e => [errFrameEvent e])) = _
    rw [hd]

/-- Witness: with an oracle immediately returning a valid syllabus JSON, the
success path emits the message-only complete event and then the data frame. -/
theorem c4_terminal_frames_are_final_witness :
    eventsV2 (some (strL "syllabus.pdf"))
        (fun _ => .ok (strL "\x7b\"course\":\"C1\",\"assignments\":[]\x7d"))
      = ([progEvent (strL "uploading") (strL "Receiving PDF file..."),
          progEvent (strL "uploading") (strL "Processing syllabus.pdf...")]
          ++ (extractV2 (fun _ => .ok (strL "\x7b\"course\":\"C1\",\"assignments\":[]\x7d"))).1)
        ++ [progEvent (strL "complete") (extractedMsg ⟨strL "C1", []⟩),
            completeDataEventV2 ⟨strL "C1", []⟩] := by
  have h := c4_terminal_frames_are_final.2.2.2.2 (strL "syllabus.pdf")
    (fun _ => .ok (strL "\x7b\"course\":\"C1\",\"assignments\":[]\x7d")) ⟨strL "C1", []⟩ rfl
  simpa using h

/-- Counterexample to C4 as stated: in the non-streaming variant's success
path a complete-stage event is followed by a further event (the second,
data-carrying complete frame). -/
theorem c4_counterexample :
    stageTerminalOkB (eventsV2 (some (strL "syllabus.pdf"))
        (fun _ => .ok (strL "\x7b\"course\":\"C1\",\"assignments\":[]\x7d"))) = false ∧
    (eventsV2 (some (strL "syllabus.pdf"))
        (fun _ => .ok (strL "\x7b\"course\":\"C1\",\"assignments\":[]\x7d"))).map (·.stage)
      = [strL "uploading", strL "uploading", strL "analyzing", strL "extracting",
         strL "validating", strL "complete", strL "complete"] := ⟨rfl, rfl⟩

/-! ## The partial-merge accumulators

Client side: `handleProgress` in `UploadModal` (lines 37-57) merges
`event.partialData` into the previous extracted data.  Server side:
`streamExtractSyllabusData` (page.tsx lines 337-357) folds the partial
objects into `finalData`.  In JavaScript an array is truthy even when empty,
so `partial.assignments || prev?.assignments || []` takes the fragment's
array whenever the field is present at all. -/

/-- JS `a || b` for an optional string: absent and the empty string are
falsy. -/
def jsOr (a : Option (List Char)) (b : List Char) : List Char :=
  match a with
  | some s => if s.isEmpty then b else s
  | none => b

/-- Truthiness of an optional string (absent or empty is falsy). -/
def jsTruthyStr (a : Option (List Char)) : Bool :=
  match a with
  | some s => !s.isEmpty
  | none => false

/-- The client accumulator: one `setExtractedData` merge step of
`handleProgress` for a fragment `q` (`partial.course || prev?.course || ""`;
`partial.assignments || prev?.assignments || []`; no update at all when the
guard `partial.course || partial.assignments` is falsy). -/
def handleProgressMerge (prev : Option SyllabusStructure) (q : PartialSyllabus) :
    Option SyllabusStructure :=
  if jsTruthyStr q.course || q.assignments.isSome then
    some ⟨jsOr q.course (jsOr (prev.map (·.course)) []),
          match q.assignments with
          | some l => l
          | none => ((prev.map (·.assignments)).getD [])⟩
  else prev

/-- The server accumulator: one step of the `finalData` fold in
`streamExtractSyllabusData` — first `if (partial.course)` rebuilds
`finalData` from the fragment (with `partial.assignments || []`), then
`if (partial.assignments && partial.assignments.length > 0)` rebuilds it
again with `partial.course || finalData?.course || ""`. -/
def serverMergeStep (fd : Option SyllabusStructure) (q : PartialSyllabus) :
    Option SyllabusStructure :=
  let fd1 := if jsTruthyStr q.course then
      some (⟨jsOr q.course [], q.assignments.getD []⟩ : SyllabusStructure)
    else fd
  match q.assignments with
  | some l =>
      if l.isEmpty then fd1
      else some ⟨jsOr q.course (jsOr (fd1.map (·.course)) []), l⟩
  | none => fd1

/-- The fragments of a run folded into the working value, as the stream
consumer dispatches them. -/
def mergeFold (qs : List PartialSyllabus) (init : Option SyllabusStructure) :
    Option SyllabusStructure :=
  qs.foldl handleProgressMerge init

/-- Amended merge behaviour.  Client accumulator: a fragment with neither a
non-empty course nor an assignments field changes nothing; a fragment whose
assignments field is present — even an empty array — replaces the
accumulated assignments wholesale; the course is replaced only by a
non-empty fragment course.  Server accumulator: a fragment with falsy course
and an absent or empty assignments array changes nothing; a non-empty
fragment course rebuilds the value even when the fragment's array is empty,
clearing previously accumulated assignments; a non-empty fragment array
always replaces the assignments. -/
theorem c8_assignments_replaced_on_presence :
    (∀ (prev : Option SyllabusStructure) (q : PartialSyllabus),
      jsTruthyStr q.course = false → q.assignments = none →
      handleProgressMerge prev q = prev) ∧
    (∀ (prev : Option SyllabusStructure) (q : PartialSyllabus) (l : List AssignmentDraft),
      q.assignments = some l →
      handleProgressMerge prev q
        = some ⟨jsOr q.course (jsOr (prev.map (·.course)) []), l⟩) ∧
    (∀ (prev : Option SyllabusStructure) (q : PartialSyllabus) (s : List Char),
      q.course = some s → s ≠ [] →
      ∃ l, handleProgressMerge prev q = some ⟨s, l⟩) ∧
    (∀ (fd : Option SyllabusStructure) (q : PartialSyllabus),
      jsTruthyStr q.course = false → (q.assignments = none ∨ q.assignments = some []) →
      serverMergeStep fd q = fd) ∧
    (∀ (fd : Option SyllabusStructure) (q : PartialSyllabus) (s : List Char),
      q.course = some s → s ≠ [] → q.assignments = some [] →
      serverMergeStep fd q = some ⟨s, []⟩) ∧
    (∀ (fd : Option SyllabusStructure) (q : PartialSyllabus) (l : List AssignmentDraft),
      q.assignments = some l → l ≠ [] →
      ∃ c, serverMergeStep fd q = some ⟨c, l⟩) := by
  refine ⟨?_, ?_, ?_, ?_, ?_, ?_⟩
  · intro prev q hc ha
    simp [handleProgressMerge, hc, ha]
  · intro prev q l ha
    simp [handleProgressMerge, ha]
  · intro prev q s hs hne
    have ht : jsTruthyStr q.course = true := by
      simp [jsTruthyStr, hs, List.isEmpty_iff, hne]
    refine ⟨match q.assignments with
      | some l => l
      | none => ((prev.map (·.assignments)).getD []), ?_⟩
    simp only [handleProgressMerge, ht, Bool.true_or, if_true]
    have hor : jsOr q.course (jsOr (prev.map (·.course)) []) = s := by
      simp [jsOr, hs, List.isEmpty_iff, hne]
    rw [hor]
  · intro fd q hc ha
    rcases ha with ha | ha <;> simp [serverMergeStep, hc, ha]
  · intro fd q s hs hne ha
    have ht : jsTruthyStr q.course = true := by
      simp [jsTruthyStr, hs, List.isEmpty_iff, hne]
    have hor : jsOr q.course [] = s := by
      simp [jsOr, hs, List.isEmpty_iff, hne]
    simp [serverMergeStep, ht, ha, hor]
  · intro fd q l ha hne
    refine ⟨jsOr q.course (jsOr (((if jsTruthyStr q.course then
        some (⟨jsOr q.course [], q.assignments.getD []⟩ : SyllabusStructure)
      else fd).map (·.course))) []), ?_⟩
    simp [serverMergeStep, ha, List.isEmpty_iff, hne]

/-- Witness: a fragment carrying a new non-empty course and a non-empty
array replaces both, in both accumulators. -/
theorem c8_assignments_replaced_on_presence_witness :
    handleProgressMerge (some ⟨strL "C", []⟩)
        ⟨none, some [⟨strL "HW1", none, strL "2026-02-15", none⟩]⟩
      = some ⟨strL "C", [⟨strL "HW1", none, strL "2026-02-15", none⟩]⟩ ∧
    serverMergeStep (some ⟨strL "C", [⟨strL "HW1", none, strL "2026-02-15", none⟩]⟩)
        ⟨some (strL "X"), some []⟩
      = some ⟨strL "X", []⟩ := by
  constructor
  · have h := c8_assignments_replaced_on_presence.2.1 (some ⟨strL "C", []⟩)
      ⟨none, some [⟨strL "HW1", none, strL "2026-02-15", none⟩]⟩
      [⟨strL "HW1", none, strL "2026-02-15", none⟩] rfl
    simpa [jsOr] using h
  · exact c8_assignments_replaced_on_presence.2.2.2.2.1
      (some ⟨strL "C", [⟨strL "HW1", none, strL "2026-02-15", none⟩]⟩)
      ⟨some (strL "X"), some []⟩ (strL "X") rfl (by decide) rfl

/-- Counterexample to C8 as stated: a fragment whose assignments array is
present but empty does not leave the accumulated assignments unchanged — it
clears them (client accumulator; the server accumulator does the same when
the fragment also carries a non-empty course). -/
theorem c8_counterexample :
    handleProgressMerge (some ⟨strL "C", [⟨strL "HW1", none, strL "2026-02-15", none⟩]⟩)
        ⟨none, some []⟩
      = some ⟨strL "C", []⟩ ∧
    serverMergeStep (some ⟨strL "C", [⟨strL "HW1", none, strL "2026-02-15", none⟩]⟩)
        ⟨some (strL "X"), some []⟩
      = some ⟨strL "X", []⟩ := ⟨rfl, rfl⟩

/-! ## The persistence step (`saveSelectedAssignments`, src/lib/data.ts)

`new Date(dateTimeString)` is modelled for ISO local date-times
`YYYY-MM-DDTHH:MM[:SS]` (the only shape this pipeline builds): the ECMA
specification range-checks each component, and any other shape yields an
invalid date here.  The `assignments` relation (src/db/schema.ts) is a list
of rows with a uniqueness constraint over `(courseName, assignmentName)`;
the drizzle `onConflictDoUpdate` upsert updates `description`, `dueDateTime`
and resets `notificationSent` on collision. -/

/-- A parsed calendar timestamp. -/
structure DateTime where
  year : Nat
  month : Nat
  day : Nat
  hour : Nat
  minute : Nat
  second : Nat
deriving DecidableEq

/-- Gregorian leap-year rule. -/
def isLeap (y : Nat) : Bool := (y % 4 = 0 && !(y % 100 = 0)) || y % 400 = 0

/-- Days in the given month. -/
def daysInMonth (y m : Nat) : Nat :=
  if m = 2 then (if isLeap y then 29 else 28)
  else if m = 4 || m = 6 || m = 9 || m = 11 then 30
  else 31

/-- Model of `new Date(s)` on `YYYY-MM-DDTHH:MM[:SS]` strings: positional
digits, range-checked; everything else is an invalid date (`none`). -/
def parseJsDate (cs : List Char) : Option DateTime :=
  match cs with
  | y1 :: y2 :: y3 :: y4 :: '-' :: m1 :: m2 :: '-' :: d1 :: d2 :: 'T'
      :: h1 :: h2 :: ':' :: mi1 :: mi2 :: rest =>
      if isDigit y1 && isDigit y2 && isDigit y3 && isDigit y4 && isDigit m1 && isDigit m2
          && isDigit d1 && isDigit d2 && isDigit h1 && isDigit h2 && isDigit mi1
          && isDigit mi2
          && decide (1 ≤ digitVal m1 * 10 + digitVal m2)
          && decide (digitVal m1 * 10 + digitVal m2 ≤ 12)
          && decide (1 ≤ digitVal d1 * 10 + digitVal d2)
          && decide (digitVal d1 * 10 + digitVal d2 ≤
              daysInMonth (((digitVal y1 * 10 + digitVal y2) * 10 + digitVal y3) * 10
                  + digitVal y4) (digitVal m1 * 10 + digitVal m2))
          && decide (digitVal h1 * 10 + digitVal h2 ≤ 23)
          && decide (digitVal mi1 * 10 + digitVal mi2 ≤ 59) then
        match rest with
        | [] => some ⟨((digitVal y1 * 10 + digitVal y2) * 10 + digitVal y3) * 10
              + digitVal y4,
            digitVal m1 * 10 + digitVal m2, digitVal d1 * 10 + digitVal d2,
            digitVal h1 * 10 + digitVal h2, digitVal mi1 * 10 + digitVal mi2, 0⟩
        | ':' :: s1 :: s2 :: [] =>
            if isDigit s1 && isDigit s2 && decide (digitVal s1 * 10 + digitVal s2 ≤ 59) then
              some ⟨((digitVal y1 * 10 + digitVal y2) * 10 + digitVal y3) * 10
                  + digitVal y4,
                digitVal m1 * 10 + digitVal m2, digitVal d1 * 10 + digitVal d2,
                digitVal h1 * 10 + digitVal h2, digitVal mi1 * 10 + digitVal mi2,
                digitVal s1 * 10 + digitVal s2⟩
            else none
        | _ => none
      else none
  | _ => none

/-- Whatever the `due_date` string is, a successful parse of
`due_date ++ "T23:59"` carries the time-of-day 23:59:00: the grammar forces
the last six characters into the hour-minute (or second) positions, and the
seconds shape is impossible for this suffix. -/
theorem parseJsDate_suffix_2359 (d : List Char) (dt : DateTime)
    (h : parseJsDate (d ++ strL "T23:59") = some dt) :
    dt.hour = 23 ∧ dt.minute = 59 ∧ dt.second = 0 := by
  unfold parseJsDate at h
  split at h
  case _ y1 y2 y3 y4 m1 m2 d1 d2 h1 h2 mi1 mi2 rest heq =>
    split at h
    · split at h
      · -- rest = []: the last six characters are `Thh:mm`.
        have hlen : d.length + 6 = 16 := by
          have h0 : d.length + (strL "T23:59").length = 16 := by
            simpa [List.length_append] using congrArg List.length heq
          exact h0
        have hd10 : d.length = 10 := by omega
        have hsuf : strL "T23:59" = ['T', h1, h2, ':', mi1, mi2] := by
          have h0 := congrArg (List.drop 10) heq
          rwa [List.drop_left' hd10] at h0
        have hsuf2 : (['T', '2', '3', ':', '5', '9'] : List Char)
            = ['T', h1, h2, ':', mi1, mi2] := hsuf
        simp only [List.cons.injEq, and_true] at hsuf2
        obtain ⟨-, hh1, hh2, -, hm1, hm2⟩ := hsuf2
        injection h with h'
        subst h'
        refine ⟨?_, ?_, rfl⟩
        · simp [← hh1, ← hh2, digitVal]
        · simp [← hm1, ← hm2, digitVal]
      · -- rest = `:ss`: impossible, the suffix would put `:` where `T` is.
        exfalso
        have hlen : d.length + 6 = 19 := by
          have h0 : d.length + (strL "T23:59").length = 19 := by
            simpa [List.length_append] using congrArg List.length heq
          exact h0
        have hd13 : d.length = 13 := by omega
        have h0 := congrArg (List.drop 13) heq
        rw [List.drop_left' hd13] at h0
        have h3 : (some 'T' : Option Char) = some ':' := congrArg List.head? h0
        exact absurd h3 (by decide)
      · exact absurd h (by simp)
    · exact absurd h (by simp)
  case _ =>
    exact absurd h (by simp)

/-- One row of the `assignments` relation (the generated `id` and timestamps
of insertion order are irrelevant to the claims and omitted). -/
structure DbRow where
  courseName : List Char
  assignmentName : List Char
  description : List Char
  dueDateTime : DateTime
  notificationSent : Bool

/-- Whether a row collides with the `(courseName, assignmentName)` key. -/
def keyMatches (c n : List Char) (row : DbRow) : Bool :=
  decide (row.courseName = c ∧ row.assignmentName = n)

/-- The drizzle upsert keyed on the unique constraint
`(course_name, assignment_name)`: insert when no row collides; on collision
update `description` and `dueDateTime` in place and reset
`notificationSent`. -/
def upsertAssignment (db : List DbRow) (r : DbRow) : List DbRow :=
  if db.any (keyMatches r.courseName r.assignmentName) then
    db.map (fun row => if keyMatches r.courseName r.assignmentName row then
      { row with
          description := r.description,
          dueDateTime := r.dueDateTime,
          notificationSent := false }
      else row)
  else db ++ [r]

/-- The running state of the `saveSelectedAssignments` loop. -/
structure SaveState where
  db : List DbRow
  successCount : Nat
  errors : List (List Char)

/-- One iteration of the `saveSelectedAssignments` loop (data.ts lines
469-503): default a falsy `due_time` (absent, null or empty) to `23:59`,
combine, and on an invalid date record a per-item error and skip; otherwise
upsert with `description || ""` and `notificationSent: false`. -/
def saveItem (courseName : List Char) (st : SaveState) (a : AssignmentDraft) : SaveState :=
  let time := match a.due_time with
    | some (some s) => if s.isEmpty then strL "23:59" else s
    | _ => strL "23:59"
  match parseJsDate (a.due_date ++ 'T' :: time) with
  | none => { st with errors := st.errors ++ [strL "Invalid date for assignment: "
      ++ a.name ++ strL " (" ++ a.due_date ++ 'T' :: time ++ strL ")"] }
  | some dt =>
      { st with
        db := upsertAssignment st.db ⟨courseName, a.name, a.description.getD [], dt, false⟩,
        successCount := st.successCount + 1 }

/-- The whole per-item loop. -/
def saveLoop (courseName : List Char) (drafts : List AssignmentDraft)
    (st : SaveState) : SaveState :=
  drafts.foldl (saveItem courseName) st

/-- The value returned to the caller:
`{success: true, count, errors?}` or `{success: false, error}`. -/
inductive SaveResult where
  | okr : Nat → Option (List (List Char)) → SaveResult
  | failr : List Char → SaveResult

/-- `saveSelectedAssignments` (data.ts lines 456-526): run the loop, then
signal failure when the success count is zero — with the joined per-item
errors, or `"No valid assignments found"` when there were none. -/
def saveSelectedAssignments (courseName : List Char) (drafts : List AssignmentDraft)
    (db : List DbRow) : SaveResult × List DbRow :=
  let st := saveLoop courseName drafts ⟨db, 0, []⟩
  if st.successCount = 0 then
    (.failr (if st.errors.isEmpty then strL "No valid assignments found"
      else joinSep (strL "; ") st.errors), st.db)
  else
    (.okr st.successCount (if st.errors.isEmpty then none else some st.errors), st.db)

/-- A draft whose `due_time` is absent or null is combined with the
end-of-day default: if the combination parses, the persisted timestamp's
time-of-day is 23:59 (and the item is upserted, counting as a success); if
it does not parse, a per-item error is recorded and the item is skipped —
and the loop simply continues with the remaining drafts either way. -/
theorem c6_absent_time_defaults_2359 :
    (∀ (courseName : List Char) (st : SaveState) (a : AssignmentDraft),
      a.due_time = none ∨ a.due_time = some none →
      (∀ dt : DateTime, parseJsDate (a.due_date ++ strL "T23:59") = some dt →
        (dt.hour = 23 ∧ dt.minute = 59) ∧
        saveItem courseName st a = { st with
          db := upsertAssignment st.db
            ⟨courseName, a.name, a.description.getD [], dt, false⟩,
          successCount := st.successCount + 1 }) ∧
      (parseJsDate (a.due_date ++ strL "T23:59") = none →
        saveItem courseName st a = { st with
          errors := st.errors ++ [strL "Invalid date for assignment: " ++ a.name
            ++ strL " (" ++ a.due_date ++ strL "T23:59" ++ strL ")"] })) ∧
    (∀ (courseName : List Char) (a : AssignmentDraft) (drafts : List AssignmentDraft)
        (st : SaveState),
      saveLoop courseName (a :: drafts) st = saveLoop courseName drafts (saveItem courseName st a)) := by
  constructor
  · intro courseName st a ha
    have htime : (match a.due_time with
        | some (some s) => if s.isEmpty then strL "23:59" else s
        | _ => strL "23:59") = strL "23:59" := by
      rcases ha with ha | ha <;> rw [ha]
    constructor
    · intro dt hp
      have hp' : parseJsDate (a.due_date ++ 'T' :: strL "23:59") = some dt := hp
      refine ⟨?_, ?_⟩
      · have := parseJsDate_suffix_2359 a.due_date dt hp
        exact ⟨this.1, this.2.1⟩
      · unfold saveItem
        rw [htime]
        simp only [hp']
    · intro hp
      have hp' : parseJsDate (a.due_date ++ 'T' :: strL "23:59") = none := hp
      unfold saveItem
      rw [htime]
      simp only [hp']
      rfl
  · intro courseName a drafts st
    rfl

/-- Witness: a draft with a null `due_time` and a valid date is persisted at
23:59; one with an unparseable date is skipped with a per-item error while
the loop goes on. -/
theorem c6_absent_time_defaults_2359_witness :
    saveItem (strL "CS 405") ⟨[], 0, []⟩ ⟨strL "HW1", none, strL "2026-02-15", some none⟩
      = { db := [⟨strL "CS 405", strL "HW1", [], ⟨2026, 2, 15, 23, 59, 0⟩, false⟩],
          successCount := 1, errors := [] } ∧
    (⟨2026, 2, 15, 23, 59, 0⟩ : DateTime).hour = 23 ∧
    saveItem (strL "CS 405") ⟨[], 0, []⟩ ⟨strL "HW2", none, strL "soon", none⟩
      = { db := [], successCount := 0,
          errors := [strL "Invalid date for assignment: HW2 (soonT23:59)"] } := by
  have h1 := (c6_absent_time_defaults_2359.1 (strL "CS 405") ⟨[], 0, []⟩
    ⟨strL "HW1", none, strL "2026-02-15", some none⟩ (Or.inr rfl)).1
    ⟨2026, 2, 15, 23, 59, 0⟩ rfl
  have h2 := (c6_absent_time_defaults_2359.1 (strL "CS 405") ⟨[], 0, []⟩
    ⟨strL "HW2", none, strL "soon", none⟩ (Or.inl rfl)).2 rfl
  refine ⟨?_, h1.1.1, ?_⟩
  · rw [h1.2]
    rfl
  · rw [h2]
    rfl

/-- The uniqueness constraint of src/db/schema.ts: no two rows share the
`(courseName, assignmentName)` pair. -/
def NoDupKeys (db : List DbRow) : Prop :=
  db.Pairwise (fun r1 r2 =>
    ¬(r1.courseName = r2.courseName ∧ r1.assignmentName = r2.assignmentName))

theorem keyMatches_self (r : DbRow) : keyMatches r.courseName r.assignmentName r = true := by
  simp [keyMatches]

theorem filter_key_le_one (db : List DbRow) (c n : List Char) (h : NoDupKeys db) :
    (db.filter (keyMatches c n)).length ≤ 1 := by
  induction db with
  | nil => simp
  | cons r db ih =>
      have hpw := List.pairwise_cons.mp h
      by_cases hk : keyMatches c n r = true
      · have hnone : db.filter (keyMatches c n) = [] := by
          rw [List.filter_eq_nil_iff]
          intro row hm hrow
          apply hpw.1 row hm
          have h1 := of_decide_eq_true hk
          have h2 := of_decide_eq_true hrow
          exact ⟨h1.1.trans h2.1.symm, h1.2.trans h2.2.symm⟩
        simp [List.filter_cons, hk, hnone]
      · rw [List.filter_cons, if_neg (by simpa using hk)]
        exact ih hpw.2

theorem upsert_filter_key (db : List DbRow) (r : DbRow) (h : NoDupKeys db) :
    ((upsertAssignment db r).filter
        (keyMatches r.courseName r.assignmentName)).length = 1 := by
  unfold upsertAssignment
  by_cases hany : db.any (keyMatches r.courseName r.assignmentName) = true
  · rw [if_pos hany]
    rw [List.filter_map]
    have hcong : db.filter ((keyMatches r.courseName r.assignmentName) ∘
        (fun row => if keyMatches r.courseName r.assignmentName row then
          { row with
              description := r.description,
              dueDateTime := r.dueDateTime,
              notificationSent := false }
          else row))
        = db.filter (keyMatches r.courseName r.assignmentName) := by
      apply List.filter_congr
      intro row _
      by_cases hk : keyMatches r.courseName r.assignmentName row = true
      · simp only [Function.comp_apply, hk, if_true]
        simpa [keyMatches] using hk
      · simp only [Function.comp_apply, hk, Bool.false_eq_true, if_false]
    rw [hcong, List.length_map]
    have hle := filter_key_le_one db r.courseName r.assignmentName h
    have hge : 1 ≤ (db.filter (keyMatches r.courseName r.assignmentName)).length := by
      obtain ⟨row, hm, hk⟩ := List.any_eq_true.mp hany
      have : row ∈ db.filter (keyMatches r.courseName r.assignmentName) :=
        List.mem_filter.mpr ⟨hm, hk⟩
      exact List.length_pos.mpr (fun hnil => by simp [hnil] at this)
    omega
  · rw [if_neg hany]
    rw [List.filter_append]
    have hnone : db.filter (keyMatches r.courseName r.assignmentName) = [] := by
      rw [List.filter_eq_nil_iff]
      intro row hm hrow
      exact hany (List.any_eq_true.mpr ⟨row, hm, hrow⟩)
    simp [hnone, keyMatches_self r]

theorem upsert_nodup (db : List DbRow) (r : DbRow) (h : NoDupKeys db) :
    NoDupKeys (upsertAssignment db r) := by
  unfold upsertAssignment
  by_cases hany : db.any (keyMatches r.courseName r.assignmentName) = true
  · rw [if_pos hany]
    refine List.Pairwise.map _ ?_ h
    intro a b hab
    by_cases ha : keyMatches r.courseName r.assignmentName a = true <;>
      by_cases hb : keyMatches r.courseName r.assignmentName b = true <;>
      simpa [ha, hb] using hab
  · rw [if_neg hany]
    unfold NoDupKeys
    rw [List.pairwise_append]
    refine ⟨h, by simp, ?_⟩
    intro a ha b hb
    simp only [List.mem_singleton] at hb
    subst hb
    intro hab
    apply hany
    exact List.any_eq_true.mpr ⟨a, ha, by simp [keyMatches, hab.1, hab.2]⟩

theorem upsert_key_fields (db : List DbRow) (r : DbRow) (hr : r.notificationSent = false) :
    ∀ row ∈ upsertAssignment db r, keyMatches r.courseName r.assignmentName row = true →
      row.description = r.description ∧ row.dueDateTime = r.dueDateTime ∧
      row.notificationSent = false := by
  intro row hm hk
  unfold upsertAssignment at hm
  by_cases hany : db.any (keyMatches r.courseName r.assignmentName) = true
  · rw [if_pos hany] at hm
    obtain ⟨row', _, hrow⟩ := List.mem_map.mp hm
    by_cases hk' : keyMatches r.courseName r.assignmentName row' = true
    · rw [if_pos hk'] at hrow
      subst hrow
      exact ⟨rfl, rfl, rfl⟩
    · rw [if_neg hk'] at hrow
      subst hrow
      exact absurd hk hk'
  · rw [if_neg hany] at hm
    rcases List.mem_append.mp hm with hmem | hmem
    · exact absurd (List.any_eq_true.mpr ⟨row, hmem, hk⟩) hany
    · simp only [List.mem_singleton] at hmem
      subst hmem
      exact ⟨rfl, rfl, hr⟩

/-- Upserting the same `(courseName, assignmentName)` key twice leaves
exactly one row with that key; it reflects the second write, with
`notificationSent` reset to false; and the uniqueness of the key is
preserved. -/
theorem c7_upsert_idempotent_second_write_wins :
    ∀ (db : List DbRow) (c n d1 d2 : List Char) (t1 t2 : DateTime),
      NoDupKeys db →
      NoDupKeys (upsertAssignment (upsertAssignment db ⟨c, n, d1, t1, false⟩)
        ⟨c, n, d2, t2, false⟩) ∧
      ((upsertAssignment (upsertAssignment db ⟨c, n, d1, t1, false⟩)
          ⟨c, n, d2, t2, false⟩).filter (keyMatches c n)).length = 1 ∧
      (∀ row ∈ upsertAssignment (upsertAssignment db ⟨c, n, d1, t1, false⟩)
          ⟨c, n, d2, t2, false⟩,
        keyMatches c n row = true →
        row.description = d2 ∧ row.dueDateTime = t2 ∧ row.notificationSent = false) := by
  intro db c n d1 d2 t1 t2 h
  have h1 : NoDupKeys (upsertAssignment db ⟨c, n, d1, t1, false⟩) :=
    upsert_nodup db _ h
  refine ⟨upsert_nodup _ _ h1, upsert_filter_key _ ⟨c, n, d2, t2, false⟩ h1, ?_⟩
  intro row hm hk
  exact upsert_key_fields _ ⟨c, n, d2, t2, false⟩ rfl row hm hk

/-- Witness: inserting then updating the same key on an empty relation
leaves one row carrying the second write. -/
theorem c7_upsert_idempotent_second_write_wins_witness :
    ((upsertAssignment (upsertAssignment [] ⟨strL "CS", strL "HW1", strL "first",
        ⟨2026, 2, 15, 23, 59, 0⟩, false⟩)
      ⟨strL "CS", strL "HW1", strL "second", ⟨2026, 3, 1, 10, 0, 0⟩, false⟩).filter
        (keyMatches (strL "CS") (strL "HW1"))).length = 1 := by
  have h := c7_upsert_idempotent_second_write_wins [] (strL "CS") (strL "HW1")
    (strL "first") (strL "second") ⟨2026, 2, 15, 23, 59, 0⟩ ⟨2026, 3, 1, 10, 0, 0⟩
    List.Pairwise.nil
  exact h.2.1

theorem saveItem_sum (c : List Char) (st : SaveState) (a : AssignmentDraft) :
    (saveItem c st a).successCount + (saveItem c st a).errors.length
      = st.successCount + st.errors.length + 1 := by
  simp only [saveItem]
  cases parseJsDate (a.due_date ++ 'T' :: (match a.due_time with
      | some (some s) => if s.isEmpty then strL "23:59" else s
      | _ => strL "23:59")) with
  | none => simp only [List.length_append, List.length_singleton]; omega
  | some dt => simp only []; omega

theorem saveLoop_sum (c : List Char) (drafts : List AssignmentDraft) :
    ∀ st : SaveState,
      (saveLoop c drafts st).successCount + (saveLoop c drafts st).errors.length
        = st.successCount + st.errors.length + drafts.length := by
  induction drafts with
  | nil => intro st; simp [saveLoop]
  | cons a drafts ih =>
      intro st
      show (saveLoop c drafts (saveItem c st a)).successCount
          + (saveLoop c drafts (saveItem c st a)).errors.length = _
      rw [ih (saveItem c st a), saveItem_sum]
      simp only [List.length_cons]
      omega

/-- `saveSelectedAssignments` signals overall failure exactly when the
success count is zero; a zero count with no per-item error happens exactly
for an empty batch, which is reported as `"No valid assignments found"` —
so failure is signalled even with no per-item error. -/
theorem c9_failure_iff_no_success :
    (∀ (c : List Char) (drafts : List AssignmentDraft) (db : List DbRow),
      (∃ msg, (saveSelectedAssignments c drafts db).1 = .failr msg) ↔
        (saveLoop c drafts ⟨db, 0, []⟩).successCount = 0) ∧
    (∀ (c : List Char) (drafts : List AssignmentDraft) (db : List DbRow),
      ((saveLoop c drafts ⟨db, 0, []⟩).successCount = 0 ∧
        (saveLoop c drafts ⟨db, 0, []⟩).errors = []) ↔ drafts = []) ∧
    (∀ (c : List Char) (drafts : List AssignmentDraft) (db : List DbRow),
      (saveLoop c drafts ⟨db, 0, []⟩).successCount = 0 →
      (saveLoop c drafts ⟨db, 0, []⟩).errors = [] →
      (saveSelectedAssignments c drafts db).1
        = .failr (strL "No valid assignments found")) := by
  refine ⟨?_, ?_, ?_⟩
  · intro c drafts db
    constructor
    · rintro ⟨msg, hmsg⟩
      by_contra hne
      simp only [saveSelectedAssignments, if_neg hne] at hmsg
      exact absurd hmsg (by simp)
    · intro hz
      refine ⟨if (saveLoop c drafts ⟨db, 0, []⟩).errors.isEmpty then
          strL "No valid assignments found"
        else joinSep (strL "; ") (saveLoop c drafts ⟨db, 0, []⟩).errors, ?_⟩
      simp only [saveSelectedAssignments, if_pos hz]
  · intro c drafts db
    constructor
    · rintro ⟨hz, he⟩
      have hsum := saveLoop_sum c drafts ⟨db, 0, []⟩
      rw [hz, he] at hsum
      simpa using List.length_eq_zero.mp (by simpa using hsum.symm)
    · rintro rfl
      exact ⟨rfl, rfl⟩
  · intro c drafts db hz he
    simp only [saveSelectedAssignments, if_pos hz, he]
    rfl

/-- Witness: a batch whose single item has an unparseable date ends with a
zero success count, so failure is signalled. -/
theorem c9_failure_iff_no_success_witness :
    ∃ msg, (saveSelectedAssignments (strL "CS")
        [⟨strL "HW2", none, strL "soon", none⟩] []).1 = .failr msg :=
  (c9_failure_iff_no_success.1 (strL "CS") [⟨strL "HW2", none, strL "soon", none⟩] []).mpr rfl

/-- Counterexample to C9 as stated: an empty batch has a zero success count
and no per-item error, yet the function signals overall failure. -/
theorem c9_counterexample :
    (saveLoop (strL "CS") [] ⟨[], 0, []⟩).successCount = 0 ∧
    (saveLoop (strL "CS") [] ⟨[], 0, []⟩).errors = [] ∧
    (saveSelectedAssignments (strL "CS") [] []).1
      = .failr (strL "No valid assignments found") := ⟨rfl, rfl, rfl⟩

end Dcal

